import Mathlib

/-!
Verification of the MojoShader preprocessor (mojoshader_preprocessor.c).

The preprocessor core (context, define table, include stack, conditional
stack, directive handlers, pull dispatcher, chunked output buffer) is
embedded from the C source.  The byte lexer `preprocessor_internal_lexer`
lives in a separate file that is not part of this repository snapshot, so
it is modelled from the specification (see its doc comment).
-/

set_option maxRecDepth 4000
set_option linter.unusedVariables false

namespace MojoPP

/-- Token tags, mirroring the C `Token` enumeration.  Single-byte tokens
(`'\n'`, punctuation) are carried by the `char` constructor, as the C code
uses the byte value itself as the tag. -/
inductive Token where
  | unknown
  | identifier
  | int_literal
  | float_literal
  | string_literal
  | addassign
  | subassign
  | multassign
  | divassign
  | modassign
  | xorassign
  | andassign
  | orassign
  | increment
  | decrement
  | rshift
  | lshift
  | andand
  | oror
  | leq
  | geq
  | eql
  | neq
  | hashhash
  | pp_include
  | pp_line
  | pp_define
  | pp_undef
  | pp_if
  | pp_ifdef
  | pp_ifndef
  | pp_else
  | pp_elif
  | pp_endif
  | pp_error
  | incomplete_comment
  | bad_chars
  | eoi
  | preprocessing_error
  | char (c : Char)
  deriving DecidableEq

/-- One conditional frame (C struct `Conditional`).  The C `next` link is
represented by keeping frames in a `List`. -/
structure Conditional where
  type : Token
  linenum : Nat
  skipping : Bool
  chosen : Bool
  deriving DecidableEq

/-- One include frame (C struct `IncludeState`).  `buf` is the byte buffer
at `source_base`; `pos` is the cursor `source` as an offset from
`source_base`; `token` is the `token` start offset; `bytes_left` is kept as
a separate field exactly as in the C code (it is *not* derived from `pos`). -/
structure IncludeState where
  filename : Option String
  included : Bool
  buf : List Char
  pos : Nat
  token : Nat
  bytes_left : Nat
  line : Nat
  conditional_stack : List Conditional
  deriving DecidableEq

/-- Byte at the cursor (reads past the buffer return a default, which the
lexer never does while `pos + bytes_left ≤ buf.length`). -/
def charAt (s : IncludeState) : Char := s.buf.getD s.pos ' '

/-- Byte one past the cursor. -/
def charAt1 (s : IncludeState) : Char := s.buf.getD (s.pos + 1) ' '

/-- `state->source++; state->bytes_left--;` -/
def advance (s : IncludeState) : IncludeState :=
  { s with pos := s.pos + 1, bytes_left := s.bytes_left - 1 }

/-- Bytes remaining to the lexer limit: the C lexer scans from `source` up
to `source + bytes_left`. -/
def remaining (s : IncludeState) : List Char :=
  (s.buf.drop s.pos).take s.bytes_left

/-- Slice of the buffer covering byte offsets `[i, j)`. -/
def bufSlice (buf : List Char) (i j : Nat) : List Char :=
  (buf.drop i).take (j - i)

/-- Same slice as a string. -/
def sliceStr (buf : List Char) (i j : Nat) : String :=
  String.mk (bufSlice buf i j)

def isWsChar (c : Char) : Bool := c == ' ' || c == '\t' || c == '\r'

def identStartChar (c : Char) : Bool :=
  (('a' ≤ c && c ≤ 'z') || ('A' ≤ c && c ≤ 'Z') || c == '_')

def identChar (c : Char) : Bool :=
  identStartChar c || ('0' ≤ c && c ≤ '9')

def digitChar (c : Char) : Bool := '0' ≤ c && c ≤ '9'

def hexChar (c : Char) : Bool :=
  digitChar c || ('a' ≤ c && c ≤ 'f') || ('A' ≤ c && c ≤ 'F')

def intSuffixChar (c : Char) : Bool :=
  c == 'u' || c == 'U' || c == 'l' || c == 'L'

/-- Modelled from the spec: is the byte at offset `p` preceded on its line
only by whitespace?  Used to decide whether a `#` starts a directive
("When the current line begins (whitespace only preceding) with `#`"). -/
def atLineStart (buf : List Char) : Nat → Bool
  | 0 => true
  | p + 1 =>
    let c := buf.getD p ' '
    if c == '\n' then true
    else if isWsChar c then atLineStart buf p
    else false

/-- Fuel-indexed body of `skipIdentChars` (structural recursion keeps the
definition kernel-reducible; the wrapper passes `bytes_left`, which is
always sufficient fuel). -/
def skipIdentCharsF : Nat → IncludeState → IncludeState
  | 0, s => s
  | fuel + 1, s =>
    if s.bytes_left = 0 then s
    else if identChar (charAt s) then skipIdentCharsF fuel (advance s) else s

/-- Modelled from the spec: consume a run of identifier characters. -/
def skipIdentChars (s : IncludeState) : IncludeState := skipIdentCharsF s.bytes_left s

/-- Fuel-indexed body of `skipDigits`. -/
def skipDigitsF : Nat → IncludeState → IncludeState
  | 0, s => s
  | fuel + 1, s =>
    if s.bytes_left = 0 then s
    else if digitChar (charAt s) then skipDigitsF fuel (advance s) else s

/-- Modelled from the spec: consume a run of decimal digits. -/
def skipDigits (s : IncludeState) : IncludeState := skipDigitsF s.bytes_left s

/-- Fuel-indexed body of `skipHexDigits`. -/
def skipHexDigitsF : Nat → IncludeState → IncludeState
  | 0, s => s
  | fuel + 1, s =>
    if s.bytes_left = 0 then s
    else if hexChar (charAt s) then skipHexDigitsF fuel (advance s) else s

/-- Modelled from the spec: consume a run of hex digits. -/
def skipHexDigits (s : IncludeState) : IncludeState := skipHexDigitsF s.bytes_left s

/-- Fuel-indexed body of `skipIntSuffix`. -/
def skipIntSuffixF : Nat → IncludeState → IncludeState
  | 0, s => s
  | fuel + 1, s =>
    if s.bytes_left = 0 then s
    else if intSuffixChar (charAt s) then skipIntSuffixF fuel (advance s) else s

/-- Modelled from the spec: consume an optional `uUlL` integer suffix. -/
def skipIntSuffix (s : IncludeState) : IncludeState := skipIntSuffixF s.bytes_left s

/-- Fuel-indexed body of `skipLineComment`. -/
def skipLineCommentF : Nat → IncludeState → IncludeState
  | 0, s => s
  | fuel + 1, s =>
    if s.bytes_left = 0 then s
    else if charAt s == '\n' then s
    else skipLineCommentF fuel (advance s)

/-- Modelled from the spec: skip a `//` comment body, stopping just before
the terminating newline (which is returned as the following token) or at
end of input. -/
def skipLineComment (s : IncludeState) : IncludeState := skipLineCommentF s.bytes_left s

/-- Fuel-indexed body of `skipBlockComment`. -/
def skipBlockCommentF : Nat → IncludeState → Bool × IncludeState
  | 0, s => (false, s)
  | fuel + 1, s =>
    if s.bytes_left = 0 then (false, s)
    else if charAt s == '*' && decide (2 ≤ s.bytes_left) && charAt1 s == '/' then
      (true, advance (advance s))
    else if charAt s == '\n' then
      skipBlockCommentF fuel { advance s with line := s.line + 1 }
    else skipBlockCommentF fuel (advance s)

/-- Modelled from the spec: scan for the `*/` that closes a block comment,
counting newlines; returns `false` (unterminated) with the cursor at end of
input when the comment is incomplete. -/
def skipBlockComment (s : IncludeState) : Bool × IncludeState :=
  skipBlockCommentF s.bytes_left s

/-- Fuel-indexed body of `stringBody`. -/
def stringBodyF : Nat → IncludeState → Bool × IncludeState
  | 0, s => (false, s)
  | fuel + 1, s =>
    if s.bytes_left = 0 then (false, s)
    else if charAt s == '\n' then (false, s)
    else if charAt s == '\\' && decide (2 ≤ s.bytes_left) then
      stringBodyF fuel (advance (advance s))
    else if charAt s == '\"' then (true, advance s)
    else stringBodyF fuel (advance s)

/-- Modelled from the spec: scan a string-literal body after the opening
quote; backslash escapes; an unterminated string to end of line yields
`BAD_CHARS` (`false` here). -/
def stringBody (s : IncludeState) : Bool × IncludeState := stringBodyF s.bytes_left s

/-- Directive keyword lookup: `#name` tokens. -/
def ppDirectiveToken (n : String) : Token :=
  if n = "include" then .pp_include
  else if n = "line" then .pp_line
  else if n = "define" then .pp_define
  else if n = "undef" then .pp_undef
  else if n = "if" then .pp_if
  else if n = "ifdef" then .pp_ifdef
  else if n = "ifndef" then .pp_ifndef
  else if n = "else" then .pp_else
  else if n = "elif" then .pp_elif
  else if n = "endif" then .pp_endif
  else if n = "error" then .pp_error
  else .unknown

/-- Modelled from the spec: lex a `#`-directive at line start.  The lexeme
starts at the `#`; an unrecognized `#name` is `UNKNOWN`. -/
def lexDirective (s : IncludeState) : Token × IncludeState :=
  let s1 := advance s
  if s1.bytes_left ≠ 0 && identStartChar (charAt s1) then
    let s2 := skipIdentChars s1
    (ppDirectiveToken (sliceStr s.buf s1.pos s2.pos), { s2 with token := s.pos })
  else if decide (2 ≤ s.bytes_left) && charAt1 s == '#' then
    (.hashhash, { advance (advance s) with token := s.pos })
  else
    (.char '#', { advance s with token := s.pos })

/-- Modelled from the spec: lex a numeric literal; `0x` hex, octal/decimal,
optional fraction and exponent (which make it a float), `uUlL`/`fF`
suffixes. -/
def lexNumber (s : IncludeState) : Token × IncludeState :=
  if charAt s == '0' && decide (2 ≤ s.bytes_left) && (charAt1 s == 'x' || charAt1 s == 'X') then
    let s1 := skipIntSuffix (skipHexDigits (advance (advance s)))
    (.int_literal, { s1 with token := s.pos })
  else
    let s1 := skipDigits s
    let fr := s1.bytes_left ≠ 0 && charAt s1 == '.'
    let s2 := if fr then skipDigits (advance s1) else s1
    let ex := s2.bytes_left ≠ 0 && (charAt s2 == 'e' || charAt s2 == 'E')
    let s3 :=
      if ex then
        let s2a := advance s2
        let s2b :=
          if s2a.bytes_left ≠ 0 && (charAt s2a == '+' || charAt s2a == '-') then advance s2a
          else s2a
        skipDigits s2b
      else s2
    if fr || ex then
      let s4 := if s3.bytes_left ≠ 0 && (charAt s3 == 'f' || charAt s3 == 'F') then advance s3 else s3
      (.float_literal, { s4 with token := s.pos })
    else
      let s4 := skipIntSuffix s3
      (.int_literal, { s4 with token := s.pos })

/-- Modelled from the spec: lex a string literal starting at the opening
quote. -/
def lexStringLit (s : IncludeState) : Token × IncludeState :=
  match stringBody (advance s) with
  | (true, s1) => (.string_literal, { s1 with token := s.pos })
  | (false, s1) => (.bad_chars, { s1 with token := s.pos })

/-- Two-character operators of the tag set (maximal munch). -/
def twoCharOp (a b : Char) : Option Token :=
  if a == '+' && b == '=' then some .addassign
  else if a == '-' && b == '=' then some .subassign
  else if a == '*' && b == '=' then some .multassign
  else if a == '/' && b == '=' then some .divassign
  else if a == '%' && b == '=' then some .modassign
  else if a == '^' && b == '=' then some .xorassign
  else if a == '&' && b == '=' then some .andassign
  else if a == '|' && b == '=' then some .orassign
  else if a == '+' && b == '+' then some .increment
  else if a == '-' && b == '-' then some .decrement
  else if a == '>' && b == '>' then some .rshift
  else if a == '<' && b == '<' then some .lshift
  else if a == '&' && b == '&' then some .andand
  else if a == '|' && b == '|' then some .oror
  else if a == '<' && b == '=' then some .leq
  else if a == '>' && b == '=' then some .geq
  else if a == '=' && b == '=' then some .eql
  else if a == '!' && b == '=' then some .neq
  else if a == '#' && b == '#' then some .hashhash
  else none

/-- Modelled from the spec: multi-character operators are recognized
maximal-munch against the tag set; any other byte is its own single-byte
token. -/
def lexOperator (s : IncludeState) : Token × IncludeState :=
  if decide (2 ≤ s.bytes_left) then
    match twoCharOp (charAt s) (charAt1 s) with
    | some t => (t, { advance (advance s) with token := s.pos })
    | none => (.char (charAt s), { advance s with token := s.pos })
  else (.char (charAt s), { advance s with token := s.pos })

/-- Modelled from the spec: the byte lexer `preprocessor_internal_lexer`
(the file `mojoshader_lexer.re` is not part of this repository snapshot).
It skips whitespace and comments, classifies the next lexeme, advances the
cursor just past it (keeping `bytes_left` in lockstep), sets `token` to the
lexeme's first byte, counts newlines, and returns `EOI` indefinitely at
`bytes_left == 0`.  Fueled with one unit per consumed byte; the wrapper
supplies sufficient fuel. -/
def lexMainF : Nat → IncludeState → Token × IncludeState
  | 0, s => (.eoi, { s with token := s.pos })
  | fuel + 1, s =>
    if h : s.bytes_left = 0 then (.eoi, { s with token := s.pos })
    else
      let c := charAt s
      if isWsChar c then lexMainF fuel (advance s)
      else if c == '\n' then
        (.char '\n', { advance s with line := s.line + 1, token := s.pos })
      else if c == '/' && decide (2 ≤ s.bytes_left) && charAt1 s == '/' then
        lexMainF fuel (skipLineComment (advance (advance s)))
      else if c == '/' && decide (2 ≤ s.bytes_left) && charAt1 s == '*' then
        match skipBlockComment (advance (advance s)) with
        | (true, s1) => lexMainF fuel s1
        | (false, s1) => (.incomplete_comment, { s1 with token := s.pos })
      else if c == '#' && atLineStart s.buf s.pos then lexDirective s
      else if identStartChar c then
        let s1 := skipIdentChars s
        (.identifier, { s1 with token := s.pos })
      else if digitChar c then lexNumber s
      else if c == '\"' then lexStringLit s
      else lexOperator s

/-- Modelled from the spec: the lexer entry point.  `bytes_left + 1` fuel
always suffices because every recursive step of `lexMainF` consumes at
least one byte. -/
def preprocessor_internal_lexer (s : IncludeState) : Token × IncludeState :=
  lexMainF (s.bytes_left + 1) s

/-- The define hash table: 256 buckets, each a chained list (C
`DefineHash *define_hashtable[256]`). -/
abbrev DefineTable := List (List (String × String))

/-- The preprocessor context (C struct `Context`).  The allocator
capability is modelled by the oracle `allocs`: each `Malloc` consumes one
entry (`false` makes that allocation fail); an empty oracle means
allocations succeed.  The conditional pool keeps only its length (frames
are zeroed on issue, so their stored contents are irrelevant).  The include
resolver capability is the function `open_cb` (`true` = SYSTEM
`<...>`, `false` = LOCAL `"..."`); `close_callback` has no modelled
effect. -/
structure Context where
  isfail : Bool
  out_of_memory : Bool
  failstr : String
  conditional_pool : Nat
  include_stack : List IncludeState
  define_hashtable : DefineTable
  filename_cache : List String
  open_cb : Bool → String → Option (List Char)
  allocs : List Bool

/-- `Malloc`: consume one oracle entry; on failure latch `out_of_memory`. -/
def MallocOK (ctx : Context) : Bool × Context :=
  match ctx.allocs with
  | [] => (true, ctx)
  | b :: rest =>
    if b then (true, { ctx with allocs := rest })
    else (false, { ctx with allocs := rest, out_of_memory := true })

/-- Truncate a string to `n` characters (`vsnprintf` into the 256-byte
`failstr` keeps at most 255 characters plus the terminator). -/
def strTrunc (n : Nat) (s : String) : String := String.mk (s.data.take n)

/-- `failf`/`fail`: latch an error string into the single failure buffer. -/
def fail (ctx : Context) (reason : String) : Context :=
  { ctx with isfail := true, failstr := strTrunc 255 reason }

/-- `hash_define`: sum of the identifier bytes in `unsigned char`
arithmetic (mod 256). -/
def hash_define (sym : String) : Nat :=
  sym.data.foldl (fun a c => (a + c.toNat) % 256) 0

def bucketOf (t : DefineTable) (h : Nat) : List (String × String) := t.getD h []

/-- Walk a bucket chain for `sym` (C `strcmp` search). -/
def bucketFind : List (String × String) → String → Option String
  | [], _ => none
  | (k, v) :: rest, sym => if k = sym then some v else bucketFind rest sym

/-- Unlink the first chain node whose identifier matches. -/
def bucketRemove : List (String × String) → String → List (String × String)
  | [], _ => []
  | (k, v) :: rest, sym => if k = sym then rest else (k, v) :: bucketRemove rest sym

/-- `find_define`. -/
def find_define (ctx : Context) (sym : String) : Option String :=
  bucketFind (bucketOf ctx.define_hashtable (hash_define sym)) sym

/-- `add_define`: fail (latching "... already defined") if the identifier
is present; otherwise allocate the bucket node and the two owned copies and
prepend to the bucket. -/
def add_define (ctx : Context) (sym val : String) : Bool × Context :=
  let h := hash_define sym
  let bucket := bucketOf ctx.define_hashtable h
  if (bucketFind bucket sym).isSome then
    (false, fail ctx ("\x27" ++ sym ++ "\x27 already defined"))
  else
    let r1 := MallocOK ctx
    if !r1.1 then (false, r1.2)
    else
      let r2 := MallocOK r1.2
      let r3 := MallocOK r2.2
      if !r2.1 || !r3.1 then (false, r3.2)
      else
        (true, { r3.2 with
          define_hashtable := r3.2.define_hashtable.set h ((sym, val) :: bucket) })

/-- `remove_define`: unlink and free; no-op (returning 0) on miss. -/
def remove_define (ctx : Context) (sym : String) : Bool × Context :=
  let h := hash_define sym
  let bucket := bucketOf ctx.define_hashtable h
  if (bucketFind bucket sym).isSome then
    (true, { ctx with define_hashtable := ctx.define_hashtable.set h (bucketRemove bucket sym) })
  else (false, ctx)

/-- `cache_filename`: linear search of the cache; on miss allocate the node
and the string copy. -/
def cache_filename (ctx : Context) (fname : Option String) : Option String × Context :=
  match fname with
  | none => (none, ctx)
  | some f =>
    if ctx.filename_cache.contains f then (some f, ctx)
    else
      let r1 := MallocOK ctx
      if !r1.1 then (none, r1.2)
      else
        let r2 := MallocOK r1.2
        if !r2.1 then (none, r2.2)
        else (some f, { r2.2 with filename_cache := f :: r2.2.filename_cache })

/-- `get_conditional`: pop the pool or allocate; frames are zeroed on
issue. -/
def get_conditional (ctx : Context) : Option Conditional × Context :=
  if ctx.conditional_pool ≠ 0 then
    (some ⟨.unknown, 0, false, false⟩, { ctx with conditional_pool := ctx.conditional_pool - 1 })
  else
    let r := MallocOK ctx
    if r.1 then (some ⟨.unknown, 0, false, false⟩, r.2) else (none, r.2)

/-- `push_source`: allocate the frame, intern the filename when present,
and push with a fresh cursor. -/
def push_source (ctx : Context) (fname : Option String) (source : List Char)
    (included : Bool) : Bool × Context :=
  let r := MallocOK ctx
  if !r.1 then (false, r.2)
  else
    let cf := cache_filename r.2 fname
    if fname.isSome && cf.1.isNone then (false, cf.2)
    else
      let st : IncludeState :=
        { filename := cf.1, included := included, buf := source,
          pos := 0, token := 0, bytes_left := source.length, line := 1,
          conditional_stack := [] }
      (true, { cf.2 with include_stack := st :: cf.2.include_stack })

/-- `pop_source`: return the frame's conditional chain to the pool and pop
(the `include_close` callback has no modelled effect). -/
def pop_source (ctx : Context) : Context :=
  match ctx.include_stack with
  | [] => ctx
  | s :: rest =>
    { ctx with include_stack := rest,
               conditional_pool := ctx.conditional_pool + s.conditional_stack.length }

/-- `require_newline`: peek one lexeme and rewind `source` and `line` "no
matter what" — the C code does not restore `bytes_left` (or `token`). -/
def require_newline (state : IncludeState) : Bool × IncludeState :=
  let source := state.pos
  let linenum := state.line
  let (token, s1) := preprocessor_internal_lexer state
  let s2 := { s1 with pos := source, line := linenum }
  if token = .incomplete_comment then (true, s2)
  else ((token = .char '\n' || token = .eoi), s2)

/-- Fuel-indexed body of `scanIncludeName`. -/
def scanIncludeNameF : Nat → IncludeState → Bool × IncludeState
  | 0, s => (true, s)
  | fuel + 1, s =>
    if s.bytes_left = 0 then (true, s)
    else
      let ch := charAt s
      if ch == '\r' || ch == '\n' then (true, s)
      else
        let s1 := advance s
        if ch == '>' then (false, s1)
        else scanIncludeNameF fuel s1

/-- The `< ... >` filename scan of `handle_pp_include` (every byte up to
`>` is part of the filename; CR/LF or end of input is bogus). -/
def scanIncludeName (s : IncludeState) : Bool × IncludeState :=
  scanIncludeNameF s.bytes_left s

/-- `handle_pp_include`. -/
def handle_pp_include (ctx : Context) : Context :=
  match ctx.include_stack with
  | [] => ctx
  | state :: rest =>
    let (token, s1) := preprocessor_internal_lexer state
    let scanned :=
      if token = .string_literal then (false, false, s1)
      else if token = .char '<' then
        let (b, s2) := scanIncludeName s1
        (b, true, s2)
      else (true, false, s1)
    let bogus1 := scanned.1
    let system := scanned.2.1
    let s2 := scanned.2.2
    if bogus1 then fail { ctx with include_stack := s2 :: rest } "Invalid #include directive"
    else
      let s3 := { s2 with token := s2.token + 1 }
      let fname := sliceStr s3.buf s3.token (s3.pos - 1)
      let nl := require_newline s3
      if !nl.1 then fail { ctx with include_stack := nl.2 :: rest } "Invalid #include directive"
      else
        match ctx.open_cb system fname with
        | none => fail { ctx with include_stack := nl.2 :: rest } "Include callback failed"
        | some newdata =>
          (push_source { ctx with include_stack := nl.2 :: rest } (some fname) newdata true).2

/-- `atoi` on the lexed integer-literal slice (leading digits). -/
def atoiNat (cs : List Char) : Nat :=
  (cs.takeWhile digitChar).foldl (fun a c => a * 10 + (c.toNat - 48)) 0

/-- `handle_pp_line`. -/
def handle_pp_line (ctx : Context) : Context :=
  match ctx.include_stack with
  | [] => ctx
  | state :: rest =>
    let (t1, s1) := preprocessor_internal_lexer state
    if t1 ≠ .int_literal then
      fail { ctx with include_stack := s1 :: rest } "Invalid #line directive"
    else
      let linenum := atoiNat (bufSlice s1.buf s1.token s1.pos)
      let (t2, s2) := preprocessor_internal_lexer s1
      if t2 ≠ .string_literal then
        fail { ctx with include_stack := s2 :: rest } "Invalid #line directive"
      else
        let s3 := { s2 with token := s2.token + 1 }
        let fname := sliceStr s3.buf s3.token (s3.pos - 1)
        let nl := require_newline s3
        if !nl.1 then fail { ctx with include_stack := nl.2 :: rest } "Invalid #line directive"
        else
          let cf := cache_filename { ctx with include_stack := nl.2 :: rest } (some fname)
          match cf.2.include_stack with
          | [] => cf.2
          | s5 :: rest5 =>
            { cf.2 with include_stack :=
                { s5 with filename := cf.1, line := linenum } :: rest5 }

/-- The token-pulling loop of `handle_pp_error`: remember the start of the
first lexeme after the `#error` token, pull until newline / end of input /
incomplete comment, and report the cursor position saved just before the
terminator was lexed.  One fuel unit per pulled token;
`bytes_left + 1` suffices. -/
def ppErrorLoop : Nat → Option Nat → IncludeState → Option Nat × Nat × IncludeState
  | 0, dat, s => (dat, s.pos, s)
  | fuel + 1, dat, s =>
    let source := s.pos
    let (token, s1) := preprocessor_internal_lexer s
    if token = .char '\n' then (dat, source, { s1 with line := s1.line - 1 })
    else if token = .incomplete_comment || token = .eoi then (dat, source, s1)
    else
      let dat1 := if dat.isNone then some s1.token else dat
      ppErrorLoop fuel dat1 s1

/-- `handle_pp_error`: gather the message bytes between the start of the
first lexeme after `#error` and the cursor saved before the terminator,
rewind `source` so the terminator is delivered later, and latch
`"#error " ++` at most 249 message bytes.  (When no lexeme precedes the
terminator the C code subtracts a null `data` pointer; that unreachable-
in-practice case is modelled as an empty message.) -/
def handle_pp_error (ctx : Context) : Context :=
  match ctx.include_stack with
  | [] => ctx
  | state :: rest =>
    let (dat, src, s1) := ppErrorLoop (state.bytes_left + 1) none state
    let s2 := { s1 with pos := src }
    let datp := dat.getD src
    let len := src - datp
    let cpy := min len 249
    let msg := "#error " ++ sliceStr s2.buf datp (datp + cpy)
    { ctx with include_stack := s2 :: rest, isfail := true, failstr := msg }

/-- `handle_pp_undef`.  The C code copies `len - 1` bytes of the
identifier lexeme (the byte count computed from `source - token`), so the
symbol string drops the lexeme's final byte; this is mirrored exactly. -/
def handle_pp_undef (ctx : Context) : Context :=
  match ctx.include_stack with
  | [] => ctx
  | state :: rest =>
    let (token, s1) := preprocessor_internal_lexer state
    if token ≠ .identifier then
      fail { ctx with include_stack := s1 :: rest } "Macro names must be indentifiers"
    else
      let sym := sliceStr s1.buf s1.token (s1.pos - 1)
      let (ok, s2) := require_newline s1
      if !ok then fail { ctx with include_stack := s2 :: rest } "Invalid #undef directive"
      else
        (remove_define { ctx with include_stack := s2 :: rest } sym).2

/-- `_handle_pp_ifdef` (shared by `#ifdef` and `#ifndef`): lex the
identifier (with the same `len - 1` copy as `#undef`), require the
newline, take a frame from the pool, compute `skipping` (inherited from a
skipping outer frame, else from the define lookup), set
`chosen = !skipping`, and push. -/
def handle_pp_ifdef_core (ctx : Context) (ty : Token) : Context :=
  match ctx.include_stack with
  | [] => ctx
  | state :: rest =>
    let (token, s1) := preprocessor_internal_lexer state
    if token ≠ .identifier then
      fail { ctx with include_stack := s1 :: rest } "Macro names must be indentifiers"
    else
      let sym := sliceStr s1.buf s1.token (s1.pos - 1)
      let nl := require_newline s1
      if !nl.1 then
        fail { ctx with include_stack := nl.2 :: rest }
          (if ty = .pp_ifdef then "Invalid #ifdef directive" else "Invalid #ifndef directive")
      else
        let s2 := nl.2
        let gc := get_conditional { ctx with include_stack := s2 :: rest }
        match gc.1 with
        | none => gc.2
        | some _ =>
          let skipping0 :=
            match s2.conditional_stack with
            | p :: _ => p.skipping
            | [] => false
          let skipping :=
            if skipping0 then true
            else
              let found := (find_define gc.2 sym).isSome
              if ty = .pp_ifdef then !found else found
          let c : Conditional :=
            { type := ty, linenum := s2.line - 1, skipping := skipping, chosen := !skipping }
          match gc.2.include_stack with
          | [] => gc.2
          | s3 :: rest3 =>
            { gc.2 with include_stack :=
                { s3 with conditional_stack := c :: s3.conditional_stack } :: rest3 }

def handle_pp_ifdef (ctx : Context) : Context := handle_pp_ifdef_core ctx (.pp_ifdef)

def handle_pp_ifndef (ctx : Context) : Context := handle_pp_ifdef_core ctx (.pp_ifndef)

/-- `handle_pp_else`: require the newline; fail without an open
conditional or after a previous `#else`; otherwise the frame becomes an
`ELSE` frame with `skipping = chosen` and `chosen = 1`. -/
def handle_pp_else (ctx : Context) : Context :=
  match ctx.include_stack with
  | [] => ctx
  | state :: rest =>
    let (ok, s1) := require_newline state
    let ctx1 := { ctx with include_stack := s1 :: rest }
    if !ok then fail ctx1 "Invalid #else directive"
    else
      match s1.conditional_stack with
      | [] => fail ctx1 "#else without #if"
      | cond :: cs =>
        if cond.type = .pp_else then fail ctx1 "#else after #else"
        else
          let cond1 := { cond with type := .pp_else, skipping := cond.chosen, chosen := true }
          { ctx1 with include_stack := { s1 with conditional_stack := cond1 :: cs } :: rest }

/-- `handle_pp_endif`: require the newline; fail without an open
conditional; otherwise pop the frame back to the pool. -/
def handle_pp_endif (ctx : Context) : Context :=
  match ctx.include_stack with
  | [] => ctx
  | state :: rest =>
    let (ok, s1) := require_newline state
    let ctx1 := { ctx with include_stack := s1 :: rest }
    if !ok then fail ctx1 "Invalid #endif directive"
    else
      match s1.conditional_stack with
      | [] => fail ctx1 "Unmatched #endif"
      | cond :: cs =>
        { ctx1 with include_stack := { s1 with conditional_stack := cs } :: rest,
                    conditional_pool := ctx1.conditional_pool + 1 }

/-- The "Unterminated #..." message chosen from a frame's type. -/
def untermMsg (t : Token) : Option String :=
  match t with
  | .pp_if => some "Unterminated #if"
  | .pp_ifdef => some "Unterminated #ifdef"
  | .pp_ifndef => some "Unterminated #ifndef"
  | .pp_else => some "Unterminated #else"
  | .pp_elif => some "Unterminated #elif"
  | _ => none

/-- `unterminated_pp_condition`: report the top unclosed frame and pop it
(the next unclosed frame is reported on the next call).  A frame type
outside the five conditional kinds hits `assert(0)` in C; it is modelled
as popping without latching. -/
def unterminated_pp_condition (ctx : Context) : Context :=
  match ctx.include_stack with
  | [] => ctx
  | state :: rest =>
    match state.conditional_stack with
    | [] => ctx
    | cond :: cs =>
      let ctx1 :=
        match untermMsg cond.type with
        | some m => fail ctx m
        | none => ctx
      { ctx1 with include_stack := { state with conditional_stack := cs } :: rest,
                  conditional_pool := ctx1.conditional_pool + 1 }

/-- The result of one iteration of the `_preprocessor_nexttoken` loop:
either a `(bytes, length, token)` triple handed to the caller (`bytes` is
`none` exactly for the `EOI`-with-empty-stack return) or another trip
around the loop. -/
inductive StepResult where
  | ret (bytes : Option String) (len : Nat) (token : Token) (ctx : Context)
  | loop (ctx : Context)

/-- The token-dispatch chain of the `_preprocessor_nexttoken` loop body:
handle EOI (draining unterminated conditionals, else popping the frame),
incomplete comments, and the conditional directives; discard the lexeme
when the top conditional frame was skipping; dispatch the remaining
directives; otherwise hand the lexeme to the caller.  `ctx1` already
carries the post-lex include state `s1`; `skipping` was read from the top
conditional frame before the pull, as in the C loop body. -/
def nexttoken_dispatch (ctx1 : Context) (skipping : Bool) (token : Token)
    (s1 : IncludeState) : StepResult :=
  if token = .eoi then
    if s1.conditional_stack ≠ [] then .loop (unterminated_pp_condition ctx1)
    else .loop (pop_source ctx1)
  else if token = .incomplete_comment then
    .loop (fail ctx1 "Incomplete multiline comment")
  else if token = .pp_ifdef then .loop (handle_pp_ifdef ctx1)
  else if token = .pp_ifndef then .loop (handle_pp_ifndef ctx1)
  else if token = .pp_endif then .loop (handle_pp_endif ctx1)
  else if token = .pp_else then .loop (handle_pp_else ctx1)
  else if skipping then .loop ctx1
  else if token = .pp_include then .loop (handle_pp_include ctx1)
  else if token = .pp_line then .loop (handle_pp_line ctx1)
  else if token = .pp_error then .loop (handle_pp_error ctx1)
  else if token = .pp_undef then .loop (handle_pp_undef ctx1)
  else .ret (some (sliceStr s1.buf s1.token s1.pos)) (s1.pos - s1.token) token ctx1

/-- One iteration of the `while (1)` loop of `_preprocessor_nexttoken`:
flush a latched failure; end-of-everything on an empty include stack; pull
a lexeme and dispatch on it. -/
def nexttoken_step (ctx : Context) : StepResult :=
  if ctx.isfail then
    .ret (some ctx.failstr) ctx.failstr.length .preprocessing_error { ctx with isfail := false }
  else
    match ctx.include_stack with
    | [] => .ret none 0 .eoi ctx
    | state :: rest =>
      let skipping :=
        match state.conditional_stack with
        | c :: _ => c.skipping
        | [] => false
      let ts := preprocessor_internal_lexer state
      nexttoken_dispatch { ctx with include_stack := ts.2 :: rest } skipping ts.1 ts.2

/-- `_preprocessor_nexttoken`, fueled by the number of loop iterations.
`none` as the first component means the fuel ran out before the loop
returned. -/
def _preprocessor_nexttoken : Nat → Context → Option (Option String × Nat × Token) × Context
  | 0, ctx => (none, ctx)
  | fuel + 1, ctx =>
    match nexttoken_step ctx with
    | .ret b l t ctx1 => (some (b, l, t), ctx1)
    | .loop ctx1 => _preprocessor_nexttoken fuel ctx1

/-- `preprocessor_outofmemory`. -/
def preprocessor_outofmemory (ctx : Context) : Bool := ctx.out_of_memory

/-- The predefine-insertion loop of `preprocessor_start` (stops at the
first failing insertion). -/
def add_predefines (ctx : Context) : List (String × String) → Bool × Context
  | [] => (true, ctx)
  | (s, v) :: rest =>
    let (ok, ctx1) := add_define ctx s v
    if ok then add_predefines ctx1 rest else (false, ctx1)

/-- `preprocessor_start`: allocate the context, insert the caller's
predefines, push the primary source; on any failure tear down and return
no handle. -/
def preprocessor_start (fname : Option String) (source : List Char)
    (defines : List (String × String))
    (openCb : Bool → String → Option (List Char))
    (allocs : List Bool) : Option Context :=
  let ctxAlloc :=
    match allocs with
    | [] => (true, ([] : List Bool))
    | b :: r => (b, r)
  if !ctxAlloc.1 then none
  else
    let ctx0 : Context :=
      { isfail := false, out_of_memory := false, failstr := "",
        conditional_pool := 0, include_stack := [],
        define_hashtable := List.replicate 256 [], filename_cache := [],
        open_cb := openCb, allocs := ctxAlloc.2 }
    let (okay, ctx1) := add_predefines ctx0 defines
    if okay then
      let (okp, ctx2) := push_source ctx1 fname source false
      if okp then some ctx2 else none
    else none

/-- Pull up to `k` tokens, each with `fuel` loop iterations, collecting
the returned triples. -/
def pullN : Nat → Nat → Context → List (Option String × Nat × Token) × Context
  | 0, _, ctx => ([], ctx)
  | k + 1, fuel, ctx =>
    let (r, ctx1) := _preprocessor_nexttoken fuel ctx
    match r with
    | none => ([], ctx1)
    | some t =>
      let (ts, ctx2) := pullN k fuel ctx1
      (t :: ts, ctx2)

/-- A default (always failing) include resolver for concrete runs. -/
def noInclude : Bool → String → Option (List Char) := fun _ _ => none

/-- Convenience driver for concrete runs: start on `input` with the given
predefines and oracle, pull `k` tokens, and keep `(token, bytes)` pairs. -/
def runTokens (input : String) (defines : List (String × String))
    (allocs : List Bool) (k fuel : Nat) : List (Token × String) :=
  match preprocessor_start none input.data defines noInclude allocs with
  | none => []
  | some ctx => ((pullN k fuel ctx).1.map fun t => (t.2.2, t.1.getD ""))

/-- 64 KiB chunk capacity of the output buffer. -/
def BUFFER_LEN : Nat := 64 * 1024

/-- The chunked output buffer (C struct `Buffer`): the closed (full)
chunks in order, the tail chunk being filled, and the running
`total_bytes` counter. -/
structure Buffer where
  total_bytes : Nat
  closed : List (List Char)
  tail : List Char
  deriving DecidableEq

/-- `buffer_init`. -/
def buffer_init : Buffer := ⟨0, [], []⟩

/-- The copy loop of `add_to_buffer`: fill the tail chunk, close it when
it reaches `BUFFER_LEN`, repeat.  When the tail is already full and no new
chunk was opened the C loop would copy zero bytes forever; that state is
unreachable (the tail is always left shorter than `BUFFER_LEN`) and is
modelled by returning unchanged. -/
def addLoopF : Nat → List Char → List (List Char) → List Char → List (List Char) × List Char
  | 0, _, closed, tail => (closed, tail)
  | _ + 1, [], closed, tail => (closed, tail)
  | fuel + 1, d :: ds, closed, tail =>
    if BUFFER_LEN - tail.length = 0 then (closed, tail)
    else
      let cpy := min (BUFFER_LEN - tail.length) (d :: ds).length
      let tail1 := tail ++ (d :: ds).take cpy
      let data1 := (d :: ds).drop cpy
      if tail1.length = BUFFER_LEN then addLoopF fuel data1 (closed ++ [tail1]) []
      else addLoopF fuel data1 closed tail1

/-- The copy loop, fueled by the data length (each pass copies at least
one byte). -/
def addLoop (data : List Char) (closed : List (List Char)) (tail : List Char) :
    List (List Char) × List Char :=
  addLoopF data.length data closed tail

/-- `add_to_buffer`: bump `total_bytes` by the whole length up front, then
copy. -/
def add_to_buffer (b : Buffer) (data : List Char) : Buffer :=
  let (closed, tail) := addLoop data b.closed b.tail
  { total_bytes := b.total_bytes + data.length, closed := closed, tail := tail }

/-- `flatten_buffer`: one contiguous buffer holding every chunk's bytes in
order followed by a single zero terminator. -/
def flatten_buffer (b : Buffer) : List Char :=
  ((b.closed ++ [b.tail]).foldl (fun acc chunk => acc ++ chunk) []) ++ ['\x00']

/-- A buffer built by a sequence of (successful) `add_to_buffer` calls. -/
def buildBuffer (datas : List (List Char)) : Buffer :=
  datas.foldl add_to_buffer buffer_init

/-! Verification-side definitions. -/

/-- A valid identifier per the spec: `[A-Za-z_][A-Za-z0-9_]*`. -/
def validIdent (s : String) : Bool :=
  match s.data with
  | [] => false
  | c :: cs => identStartChar c && cs.all identChar

/-- The bytes held by the chunked buffer, in order. -/
def bufferContent (b : Buffer) : List Char := b.closed.flatten ++ b.tail

/-- The reachable-buffer invariant: `total_bytes` counts the stored bytes
and the tail chunk is never full. -/
def bufferWF (b : Buffer) : Prop :=
  b.total_bytes = (bufferContent b).length ∧ b.tail.length < BUFFER_LEN

/-- The failure string predicted by the specification sentence for
`#error`: `"#error "` followed by the raw byte slice from the byte just
past the `#error` keyword (offset `p`) up to, but not including, the
terminating newline, truncated so the string plus terminator fits the
256-byte buffer. -/
def claimedErrorMessage (buf : List Char) (p : Nat) : String :=
  "#error " ++ String.mk (((buf.drop p).takeWhile (fun c => c ≠ '\n')).take 248)

/-- A fallback context (used only to unpack `Option Context` in concrete
runs; never reachable). -/
def ctxFallback : Context :=
  { isfail := true, out_of_memory := true, failstr := "unreachable",
    conditional_pool := 0, include_stack := [], define_hashtable := [],
    filename_cache := [], open_cb := noInclude, allocs := [] }

/-- Concrete input for the else-inside-skipping-outer run: `A` and `B`
are both undefined, so the whole outer group is a skipping region, yet
`Y` sits in the `#else` arm of the inner conditional.  Trailing newlines
pad the tail (each directive's `require_newline` peek shrinks
`bytes_left`). -/
def elseEscapeInput : String :=
  "#ifdef A\n#ifdef B\nX\n#else\nY\n#endif\n#endif\n\n\n\n\n\n\n"

/-- Concrete balanced input: matched nested `#ifdef`/`#endif`, nothing
defined, padded tail. -/
def balancedInput : String :=
  "#ifdef A\n#ifdef B\nZ\n#endif\n#endif\n\n\n\n\n\n\n"

/-- Concrete run that latches `out_of_memory`: the third allocation (the
conditional frame for `#ifdef A`) fails. -/
def oomRunStart : Option Context :=
  preprocessor_start none ("#ifdef A\nX\n#endif\nY\n").data [] noInclude
    [true, true, false]

/-- The `#error` input with leading and trailing whitespace around the
message. -/
def errWsInput : String := "#error  bad  thing \nZ\n"

/-- A state sitting just before a directive's trailing newline, satisfying
`bytes_left = source_length - (cursor - source_base)`. -/
def peekState : IncludeState :=
  { filename := none, included := false, buf := ['\n', 'X'], pos := 0,
    token := 0, bytes_left := 2, line := 1, conditional_stack := [] }

/-- Concrete state for the outer-skip-dominance witness: the cursor sits
just past `#ifdef`, the remaining text is an identifier and its newline,
and the top conditional frame is skipping.  `B` is also in the define
table, showing the lookup is irrelevant. -/
def c9state : IncludeState :=
  { filename := none, included := false, buf := "#ifdef B\nQ\n".data, pos := 6,
    token := 0, bytes_left := 5, line := 1,
    conditional_stack := [⟨.pp_ifdef, 1, true, false⟩] }

def c9ctx : Context :=
  { isfail := false, out_of_memory := false, failstr := "",
    conditional_pool := 1, include_stack := [c9state],
    define_hashtable := (List.replicate 256 []).set (hash_define "B") [("B", "1")],
    filename_cache := [], open_cb := noInclude, allocs := [] }

/-- Concrete state for the skip-containment witness: the cursor sits at an
ordinary identifier while the top conditional frame is skipping. -/
def c1wstate : IncludeState :=
  { filename := none, included := false, buf := "W\n".data, pos := 0,
    token := 0, bytes_left := 2, line := 1,
    conditional_stack := [⟨.pp_ifdef, 1, true, false⟩] }

def c1wctx : Context :=
  { isfail := false, out_of_memory := false, failstr := "",
    conditional_pool := 0, include_stack := [c1wstate],
    define_hashtable := List.replicate 256 [], filename_cache := [],
    open_cb := noInclude, allocs := [] }

/-- Concrete state for the `#else` part of the skip-containment witness:
the cursor sits just past `#else`, and the top frame inherited skipping
from a skipping outer group (`chosen = false`). -/
def c1estate : IncludeState :=
  { filename := none, included := false, buf := "\nZ".data, pos := 0,
    token := 0, bytes_left := 2, line := 1,
    conditional_stack := [⟨.pp_ifdef, 1, true, false⟩] }

def c1ectx : Context :=
  { isfail := false, out_of_memory := false, failstr := "",
    conditional_pool := 0, include_stack := [c1estate],
    define_hashtable := List.replicate 256 [], filename_cache := [],
    open_cb := noInclude, allocs := [] }

/-- Concrete context for the error-latch witness. -/
def c4ctx : Context :=
  { isfail := true, out_of_memory := false, failstr := "boom",
    conditional_pool := 0, include_stack := [], define_hashtable := List.replicate 256 [],
    filename_cache := [], open_cb := noInclude, allocs := [] }

/-- Concrete context for the define round-trip witness. -/
def c3ctx : Context :=
  { isfail := false, out_of_memory := false, failstr := "",
    conditional_pool := 0, include_stack := [], define_hashtable := List.replicate 256 [],
    filename_cache := [], open_cb := noInclude, allocs := [] }

/-- The context carried by a dispatcher-step result. -/
def stepCtx : StepResult → Context
  | .ret _ _ _ c => c
  | .loop c => c

/-- Does a dispatcher-step result go around the loop again? -/
def stepIsLoop : StepResult → Bool
  | .loop _ => true
  | _ => false

/-- The error triple produced for one unterminated conditional frame. -/
def untermTriple (c : Conditional) : Option String × Nat × Token :=
  (some (strTrunc 255 ((untermMsg c.type).getD "")),
   (strTrunc 255 ((untermMsg c.type).getD "")).length, Token.preprocessing_error)

/-- Concrete fixtures for the unterminated-drain witness: an include frame
at end of input with two open conditional frames. -/
def c5wconds : List Conditional :=
  [⟨.pp_else, 3, false, true⟩, ⟨.pp_ifdef, 1, true, false⟩]

def c5wstate : IncludeState :=
  { filename := none, included := false, buf := "#ifdef A\n".data, pos := 9,
    token := 8, bytes_left := 0, line := 2, conditional_stack := c5wconds }

def c5wctx : Context :=
  { isfail := false, out_of_memory := false, failstr := "",
    conditional_pool := 0, include_stack := [c5wstate],
    define_hashtable := List.replicate 256 [], filename_cache := [],
    open_cb := noInclude, allocs := [] }

/-- Cursor shifted forward `a` bytes with `bytes_left` reduced in lockstep
(the net effect of `a` single-byte lexer advances). -/
def shiftState (s : IncludeState) (a : Nat) : IncludeState :=
  { s with pos := s.pos + a, bytes_left := s.bytes_left - a }

/-- Concrete state for the `#error` slice witness: the remaining text is
two spaces, the word `abc`, one space, a newline and a tail byte. -/
def c6wstate : IncludeState :=
  { filename := none, included := false, buf := "  abc \nQ".data, pos := 0,
    token := 0, bytes_left := 8, line := 1, conditional_stack := [] }

def c6wctx : Context :=
  { isfail := false, out_of_memory := false, failstr := "",
    conditional_pool := 0, include_stack := [c6wstate],
    define_hashtable := List.replicate 256 [], filename_cache := [],
    open_cb := noInclude, allocs := [] }

/-- Concrete state for the `#error` slice counterexample: the cursor sits
just past the `#error` keyword of `errWsInput`, with whitespace on both
sides of the message words. -/
def errWsState : IncludeState :=
  { filename := none, included := false, buf := errWsInput.data, pos := 6,
    token := 0, bytes_left := 16, line := 1, conditional_stack := [] }

def errWsCtx : Context :=
  { isfail := false, out_of_memory := false, failstr := "",
    conditional_pool := 0, include_stack := [errWsState],
    define_hashtable := List.replicate 256 [], filename_cache := [],
    open_cb := noInclude, allocs := [] }

/-! Theorems. -/

theorem MallocOK_oom (ctx : Context) (h : ctx.out_of_memory = true) :
    (MallocOK ctx).2.out_of_memory = true := by
  unfold MallocOK
  cases ctx.allocs with
  | nil => exact h
  | cons b rest => cases b <;> simp [h]

theorem MallocOK_table (ctx : Context) :
    (MallocOK ctx).2.define_hashtable = ctx.define_hashtable := by
  unfold MallocOK
  cases ctx.allocs with
  | nil => rfl
  | cons b rest => cases b <;> simp

theorem MallocOK_isfail (ctx : Context) :
    (MallocOK ctx).2.isfail = ctx.isfail := by
  unfold MallocOK
  cases ctx.allocs with
  | nil => rfl
  | cons b rest => cases b <;> simp

/-- Claim C4: with an error latched, the very next `next_token` call
returns a `PREPROCESSING_ERROR` token whose bytes are the failure string
(and whose length is that string's length), clears the latch, and leaves
everything else unchanged, so tokenization resumes normally. -/
theorem C4_error_latch_flush (ctx : Context) (h : ctx.isfail = true) (fuel : Nat) :
    _preprocessor_nexttoken (fuel + 1) ctx =
      (some (some ctx.failstr, ctx.failstr.length, .preprocessing_error),
        { ctx with isfail := false }) := by
  unfold _preprocessor_nexttoken nexttoken_step
  simp [h]

/-- Witness for C4 at a concrete latched context. -/
theorem C4_error_latch_flush_witness :
    c4ctx.isfail = true ∧
      _preprocessor_nexttoken 1 c4ctx =
        (some (some c4ctx.failstr, c4ctx.failstr.length, .preprocessing_error),
          { c4ctx with isfail := false }) :=
  ⟨rfl, C4_error_latch_flush c4ctx rfl 0⟩

/-- Claim C7: the peek-and-rewind of `require_newline` does *not* restore
the `bytes_left`/cursor relationship.  At the concrete state `peekState`
(which satisfies `bytes_left = source_length - (cursor - source_base)` and
sits before a trailing `"\n"`), the peek succeeds and rewinds the cursor,
but `bytes_left` stays decremented by the peeked lexeme, so afterwards
`bytes_left ≠ source_length - (cursor - source_base)`: the effective end
of input creeps backwards with every directive processed. -/
theorem C7_require_newline_breaks_invariant :
    peekState.bytes_left = peekState.buf.length - (peekState.pos - 0) ∧
      (require_newline peekState).1 = true ∧
      (require_newline peekState).2.pos = peekState.pos ∧
      (require_newline peekState).2.bytes_left ≠
        (require_newline peekState).2.buf.length - ((require_newline peekState).2.pos - 0) := by
  decide

/-- Claim C9: a nested `#ifdef`/`#ifndef` whose enclosing conditional
frame is skipping pushes a frame with `skipping = true` and
`chosen = false`, no matter what the define table holds. -/
theorem C9_outer_skip_dominates (ctx : Context) (state s1 s2 : IncludeState)
    (rest : List IncludeState) (ty : Token) (p : Conditional) (cs : List Conditional)
    (hty : ty = .pp_ifdef ∨ ty = .pp_ifndef)
    (hstack : ctx.include_stack = state :: rest)
    (hlex : preprocessor_internal_lexer state = (.identifier, s1))
    (hnl : require_newline s1 = (true, s2))
    (hpool : ctx.conditional_pool ≠ 0)
    (hcond : s2.conditional_stack = p :: cs)
    (hskip : p.skipping = true) :
    (handle_pp_ifdef_core ctx ty).include_stack =
      { s2 with conditional_stack :=
          { type := ty, linenum := s2.line - 1, skipping := true, chosen := false } ::
            s2.conditional_stack } :: rest := by
  unfold handle_pp_ifdef_core
  rw [hstack]
  simp only [hlex, hnl]
  simp [get_conditional, hpool, hcond, hskip]

/-- Witness for C9 at a concrete skipping-outer state with the tested
identifier actually present in the define table. -/
theorem C9_outer_skip_dominates_witness :
    (handle_pp_ifdef_core c9ctx .pp_ifdef).include_stack =
      { (require_newline (preprocessor_internal_lexer c9state).2).2 with
          conditional_stack :=
            { type := .pp_ifdef,
              linenum := (require_newline (preprocessor_internal_lexer c9state).2).2.line - 1,
              skipping := true, chosen := false } ::
              (require_newline (preprocessor_internal_lexer c9state).2).2.conditional_stack } :: [] :=
  C9_outer_skip_dominates c9ctx c9state (preprocessor_internal_lexer c9state).2
    (require_newline (preprocessor_internal_lexer c9state).2).2 [] .pp_ifdef
    ⟨.pp_ifdef, 1, true, false⟩ [] (Or.inl rfl) rfl (by decide) (by decide) (by decide)
    (by decide) (by decide)

theorem loop_exists (r : StepResult) (h : stepIsLoop r = true) :
    ∃ c, r = .loop c := by
  cases r with
  | ret b l t c => simp [stepIsLoop] at h
  | loop c => exact ⟨c, rfl⟩

theorem nexttoken_dispatch_skipping_loop (ctx1 : Context) (token : Token)
    (s1 : IncludeState) :
    ∃ c, nexttoken_dispatch ctx1 true token s1 = .loop c := by
  apply loop_exists
  cases token
  all_goals first
    | rfl
    | (unfold nexttoken_dispatch
       split <;> first
         | rfl
         | (split <;> rfl))

/-- Claim C1 (amended): a lexeme pulled while the top conditional frame of
the current include frame has `skipping` set is never handed to the caller
— that dispatcher iteration always goes around the loop again.  However,
the skipping *flag* is not the same as the textual skipping *region*:
`#else` sets the frame's `skipping` to the old `chosen`, which is `false`
for a frame that inherited skipping from a skipping outer frame, so the
lexemes of such an `#else` arm are pulled with the flag clear and are
emitted even though they lie inside the outer skipping region. -/
theorem C1_skip_containment_amended :
    (∀ (ctx : Context) (state : IncludeState) (rest : List IncludeState)
        (c : Conditional) (cs : List Conditional),
      ctx.isfail = false →
      ctx.include_stack = state :: rest →
      state.conditional_stack = c :: cs →
      c.skipping = true →
      ∃ ctx1, nexttoken_step ctx = .loop ctx1) ∧
    (∀ (ctx : Context) (state s1 : IncludeState) (rest : List IncludeState)
        (cond : Conditional) (cs : List Conditional),
      ctx.include_stack = state :: rest →
      require_newline state = (true, s1) →
      s1.conditional_stack = cond :: cs →
      cond.type ≠ .pp_else →
      (handle_pp_else ctx).include_stack =
        { s1 with conditional_stack :=
            { cond with type := .pp_else, skipping := cond.chosen, chosen := true } :: cs }
          :: rest) := by
  constructor
  · intro ctx state rest c cs hfail hstack hcond hskip
    unfold nexttoken_step
    rw [hfail, hstack]
    simp only [Bool.false_eq_true, if_false, hcond, hskip]
    exact nexttoken_dispatch_skipping_loop _ _ _
  · intro ctx state s1 rest cond cs hstack hnl hcond htype
    unfold handle_pp_else
    rw [hstack]
    simp [hnl, hcond, htype]

/-- Counterexample for C1 as stated: with neither `A` nor `B` defined the
whole `#ifdef A` group is a skipping region, yet the identifier `Y` from
the inner `#else` arm is returned to the caller. -/
theorem C1_skip_containment_counterexample :
    (Token.identifier, "Y") ∈ runTokens elseEscapeInput [] [] 4 60 := by
  decide

/-- Witness for C1 (amended) at concrete states: a pull under a skipping
top frame loops, and `#else` on a frame with `chosen = false` (one nested
in a skipping outer group) clears the skipping flag. -/
theorem C1_skip_containment_amended_witness :
    (∃ ctx1, nexttoken_step c1wctx = .loop ctx1) ∧
      (handle_pp_else c1ectx).include_stack =
        { (require_newline c1estate).2 with conditional_stack :=
            [{ type := .pp_else, linenum := 1, skipping := false, chosen := true }] } :: [] :=
  ⟨C1_skip_containment_amended.1 c1wctx c1wstate [] ⟨.pp_ifdef, 1, true, false⟩ []
      rfl rfl rfl rfl,
   C1_skip_containment_amended.2 c1ectx c1estate (require_newline c1estate).2 []
      ⟨.pp_ifdef, 1, true, false⟩ [] rfl (by decide) (by decide) (by decide)⟩

theorem fail_oom (ctx : Context) (r : String) :
    (fail ctx r).out_of_memory = ctx.out_of_memory := rfl

theorem remove_define_oom (ctx : Context) (sym : String) :
    (remove_define ctx sym).2.out_of_memory = ctx.out_of_memory := by
  simp only [remove_define]
  split <;> rfl

theorem get_conditional_oom (ctx : Context) (h : ctx.out_of_memory = true) :
    (get_conditional ctx).2.out_of_memory = true := by
  simp only [get_conditional]
  split
  · exact h
  · split <;> exact MallocOK_oom ctx h

theorem cache_filename_oom (ctx : Context) (fname : Option String)
    (h : ctx.out_of_memory = true) :
    (cache_filename ctx fname).2.out_of_memory = true := by
  simp only [cache_filename]
  split
  · exact h
  · split
    · exact h
    · split
      · exact MallocOK_oom ctx h
      · split
        · exact MallocOK_oom _ (MallocOK_oom ctx h)
        · simp only []
          exact MallocOK_oom _ (MallocOK_oom ctx h)

theorem push_source_oom (ctx : Context) (fname : Option String)
    (source : List Char) (included : Bool) (h : ctx.out_of_memory = true) :
    (push_source ctx fname source included).2.out_of_memory = true := by
  simp only [push_source]
  split
  · exact MallocOK_oom ctx h
  · split
    · exact cache_filename_oom _ fname (MallocOK_oom ctx h)
    · simp only []
      exact cache_filename_oom _ fname (MallocOK_oom ctx h)

theorem pop_source_oom (ctx : Context) :
    (pop_source ctx).out_of_memory = ctx.out_of_memory := by
  simp only [pop_source]
  split <;> rfl

theorem unterminated_oom (ctx : Context) :
    (unterminated_pp_condition ctx).out_of_memory = ctx.out_of_memory := by
  simp only [unterminated_pp_condition]
  repeat' split
  all_goals rfl

theorem handle_pp_undef_oom (ctx : Context) (h : ctx.out_of_memory = true) :
    (handle_pp_undef ctx).out_of_memory = true := by
  simp only [handle_pp_undef]
  repeat' split
  all_goals simp_all [fail, remove_define_oom, strTrunc]

theorem handle_pp_error_oom (ctx : Context) (h : ctx.out_of_memory = true) :
    (handle_pp_error ctx).out_of_memory = true := by
  simp only [handle_pp_error]
  repeat' split
  all_goals simp_all

theorem handle_pp_ifdef_core_oom (ctx : Context) (ty : Token)
    (h : ctx.out_of_memory = true) :
    (handle_pp_ifdef_core ctx ty).out_of_memory = true := by
  simp only [handle_pp_ifdef_core]
  repeat' split
  all_goals
    first
    | exact h
    | exact get_conditional_oom _ h
    | exact get_conditional_oom _ rfl
    | (simp_all [fail]; done)
    | simp_all [fail]

theorem handle_pp_else_oom (ctx : Context) (h : ctx.out_of_memory = true) :
    (handle_pp_else ctx).out_of_memory = true := by
  simp only [handle_pp_else]
  repeat' split
  all_goals simp_all [fail]

theorem handle_pp_endif_oom (ctx : Context) (h : ctx.out_of_memory = true) :
    (handle_pp_endif ctx).out_of_memory = true := by
  simp only [handle_pp_endif]
  repeat' split
  all_goals simp_all [fail]

theorem handle_pp_line_oom (ctx : Context) (h : ctx.out_of_memory = true) :
    (handle_pp_line ctx).out_of_memory = true := by
  simp only [handle_pp_line]
  repeat' split
  all_goals
    first
    | exact h
    | exact cache_filename_oom _ _ h
    | exact cache_filename_oom _ _ rfl
    | (simp_all [fail]; done)
    | simp_all [fail]

theorem handle_pp_include_oom (ctx : Context) (h : ctx.out_of_memory = true) :
    (handle_pp_include ctx).out_of_memory = true := by
  simp only [handle_pp_include]
  repeat' split
  all_goals
    first
    | exact h
    | exact push_source_oom _ _ _ _ h
    | exact push_source_oom _ _ _ _ rfl
    | (simp_all [fail]; done)
    | simp_all [fail]

set_option maxHeartbeats 1600000 in
theorem nexttoken_dispatch_oom (ctx1 : Context) (skipping : Bool) (token : Token)
    (s1 : IncludeState) (h : ctx1.out_of_memory = true) :
    (stepCtx (nexttoken_dispatch ctx1 skipping token s1)).out_of_memory = true := by
  unfold nexttoken_dispatch
  split
  · split
    · simp only [stepCtx]; rw [unterminated_oom]; exact h
    · simp only [stepCtx]; rw [pop_source_oom]; exact h
  · split
    · simp only [stepCtx]; rw [fail_oom]; exact h
    · split
      · simp only [stepCtx, handle_pp_ifdef]; exact handle_pp_ifdef_core_oom _ _ h
      · split
        · simp only [stepCtx, handle_pp_ifndef]; exact handle_pp_ifdef_core_oom _ _ h
        · split
          · simp only [stepCtx]; exact handle_pp_endif_oom _ h
          · split
            · simp only [stepCtx]; exact handle_pp_else_oom _ h
            · split
              · simp only [stepCtx]; exact h
              · split
                · simp only [stepCtx]; exact handle_pp_include_oom _ h
                · split
                  · simp only [stepCtx]; exact handle_pp_line_oom _ h
                  · split
                    · simp only [stepCtx]; exact handle_pp_error_oom _ h
                    · split
                      · simp only [stepCtx]; exact handle_pp_undef_oom _ h
                      · simp only [stepCtx]; exact h

theorem nexttoken_step_oom (ctx : Context) (h : ctx.out_of_memory = true) :
    (stepCtx (nexttoken_step ctx)).out_of_memory = true := by
  unfold nexttoken_step
  split
  · exact h
  · split
    · exact h
    · exact nexttoken_dispatch_oom _ _ _ _ h

/-- Claim C2 (amended): the `out_of_memory` flag is a latch — once set it
is never cleared by `next_token` and stays observable through
`out_of_memory()` — but the pull stream does *not* short-circuit to `EOI`:
`_preprocessor_nexttoken` never consults the flag, so tokenization simply
continues (see the counterexample). -/
theorem C2_oom_latch_amended (fuel : Nat) :
    ∀ (ctx : Context), ctx.out_of_memory = true →
      (_preprocessor_nexttoken fuel ctx).2.out_of_memory = true ∧
        preprocessor_outofmemory (_preprocessor_nexttoken fuel ctx).2 = true := by
  induction fuel with
  | zero => intro ctx h; exact ⟨h, h⟩
  | succ n ih =>
    intro ctx h
    unfold _preprocessor_nexttoken
    have hs := nexttoken_step_oom ctx h
    rcases hstep : nexttoken_step ctx with ⟨b, l, t, ctx1⟩ | ctx1 <;>
      rw [hstep] at hs <;> simp only [stepCtx] at hs
    · exact ⟨hs, hs⟩
    · exact ih ctx1 hs

/-- Witness for C2 (amended): after the concrete out-of-memory run (the
conditional-frame allocation for `#ifdef A` fails during the first call),
the latch survives the next call and stays observable. -/
theorem C2_oom_latch_amended_witness :
    (_preprocessor_nexttoken 60 (oomRunStart.getD ctxFallback)).2.out_of_memory = true ∧
      (_preprocessor_nexttoken 60
          (_preprocessor_nexttoken 60 (oomRunStart.getD ctxFallback)).2).2.out_of_memory = true ∧
      preprocessor_outofmemory
          (_preprocessor_nexttoken 60
            (_preprocessor_nexttoken 60 (oomRunStart.getD ctxFallback)).2).2 = true :=
  ⟨by decide,
   (C2_oom_latch_amended 60 _ (by decide)).1,
   (C2_oom_latch_amended 60 _ (by decide)).2⟩

/-- Counterexample for C2 as stated: after the flag is latched during the
first call, the next `next_token` call returns the ordinary identifier
token `X`, not `EOI`. -/
theorem C2_oom_counterexample :
    (_preprocessor_nexttoken 60 (oomRunStart.getD ctxFallback)).2.out_of_memory = true ∧
      (_preprocessor_nexttoken 60
          (_preprocessor_nexttoken 60 (oomRunStart.getD ctxFallback)).2).1 =
        some (some "X", 1, .identifier) := by
  constructor
  · decide
  · decide

theorem hash_define_lt (sym : String) : hash_define sym < 256 := by
  unfold hash_define
  generalize sym.data = l
  induction l using List.reverseRecOn with
  | nil => decide
  | append_singleton xs x ih =>
    rw [List.foldl_append]
    exact Nat.mod_lt _ (by decide)

theorem bucketOf_set_self (t : DefineTable) (h : Nat) (b : List (String × String))
    (hlt : h < t.length) : bucketOf (t.set h b) h = b := by
  induction t generalizing h with
  | nil => simp at hlt
  | cons x xs ih =>
    cases h with
    | zero => rfl
    | succ n =>
      simp only [List.set_cons_succ, bucketOf, List.getD]
      exact ih n (by simpa using hlt)

theorem MallocOK_failstr (ctx : Context) :
    (MallocOK ctx).2.failstr = ctx.failstr := by
  unfold MallocOK
  cases ctx.allocs with
  | nil => rfl
  | cons b rest => cases b <;> simp

theorem MallocOK_filename_cache (ctx : Context) :
    (MallocOK ctx).2.filename_cache = ctx.filename_cache := by
  unfold MallocOK
  cases ctx.allocs with
  | nil => rfl
  | cons b rest => cases b <;> simp

theorem MallocOK_include_stack (ctx : Context) :
    (MallocOK ctx).2.include_stack = ctx.include_stack := by
  unfold MallocOK
  cases ctx.allocs with
  | nil => rfl
  | cons b rest => cases b <;> simp

/-- A successful `add_define` requires the identifier to be absent and
prepends the new binding to its bucket, leaving everything but the
allocator state unchanged. -/
theorem add_define_success (ctx : Context) (sym val : String)
    (hadd : (add_define ctx sym val).1 = true) :
    bucketFind (bucketOf ctx.define_hashtable (hash_define sym)) sym = none ∧
      (add_define ctx sym val).2.define_hashtable =
        ctx.define_hashtable.set (hash_define sym)
          ((sym, val) :: bucketOf ctx.define_hashtable (hash_define sym)) ∧
      (add_define ctx sym val).2.isfail = ctx.isfail ∧
      (add_define ctx sym val).2.failstr = ctx.failstr := by
  revert hadd
  simp only [add_define]
  split
  · intro hadd
    simp at hadd
  · rename_i hnone
    split
    · intro hadd
      simp at hadd
    · split
      · intro hadd
        simp at hadd
      · intro _
        refine ⟨Option.not_isSome_iff_eq_none.mp (by simpa using hnone), ?_, ?_, ?_⟩
        · simp [MallocOK_table]
        · simp [MallocOK_isfail]
        · simp [MallocOK_failstr]

/-- Claim C3: for a valid identifier absent from the table, a successful
`add(id, text)` makes `find(id)` return `text`; a second `add(id, _)`
fails, latches the "already defined" error, and leaves the table
untouched; `remove(id)` then makes `find(id)` absent.  (`hlen` is the
shape invariant of every reachable table: 256 buckets.) -/
theorem C3_define_round_trip (ctx : Context) (sym val val2 : String)
    (hvalid : validIdent sym = true)
    (hlen : ctx.define_hashtable.length = 256)
    (hadd : (add_define ctx sym val).1 = true) :
    find_define (add_define ctx sym val).2 sym = some val ∧
      (add_define (add_define ctx sym val).2 sym val2).1 = false ∧
      (add_define (add_define ctx sym val).2 sym val2).2.isfail = true ∧
      (add_define (add_define ctx sym val).2 sym val2).2.failstr =
        strTrunc 255 ("\x27" ++ sym ++ "\x27 already defined") ∧
      (add_define (add_define ctx sym val).2 sym val2).2.define_hashtable =
        (add_define ctx sym val).2.define_hashtable ∧
      find_define (remove_define (add_define ctx sym val).2 sym).2 sym = none := by
  obtain ⟨hnone, htab, hisf, hfs⟩ := add_define_success ctx sym val hadd
  have hlt : hash_define sym < ctx.define_hashtable.length := by
    rw [hlen]; exact hash_define_lt sym
  generalize hg : (add_define ctx sym val).2 = ctx1 at htab hisf hfs ⊢
  have hbucket : bucketOf ctx1.define_hashtable (hash_define sym) =
      (sym, val) :: bucketOf ctx.define_hashtable (hash_define sym) := by
    rw [htab]
    exact bucketOf_set_self _ _ _ hlt
  have hfind : find_define ctx1 sym = some val := by
    unfold find_define
    rw [hbucket]
    simp [bucketFind]
  have hlt2 : hash_define sym < ctx1.define_hashtable.length := by
    rw [htab, List.length_set, hlen]
    exact hash_define_lt sym
  refine ⟨hfind, ?_, ?_, ?_, ?_, ?_⟩
  · simp only [add_define, hbucket]
    simp [bucketFind]
  · simp only [add_define, hbucket]
    simp [bucketFind, fail]
  · simp only [add_define, hbucket]
    simp [bucketFind, fail, strTrunc]
  · simp only [add_define, hbucket]
    simp [bucketFind, fail]
  · simp only [remove_define, hbucket]
    simp only [bucketFind, if_pos rfl, Option.isSome_some, if_true]
    unfold find_define
    rw [bucketOf_set_self _ _ _ hlt2]
    simpa [bucketRemove] using hnone

/-- Witness for C3 at a fresh 256-bucket table. -/
theorem C3_define_round_trip_witness :
    validIdent "FOO" = true ∧
      (find_define (add_define c3ctx "FOO" "1").2 "FOO" = some "1" ∧
        (add_define (add_define c3ctx "FOO" "1").2 "FOO" "2").1 = false ∧
        (add_define (add_define c3ctx "FOO" "1").2 "FOO" "2").2.isfail = true ∧
        (add_define (add_define c3ctx "FOO" "1").2 "FOO" "2").2.failstr =
          strTrunc 255 ("\x27" ++ "FOO" ++ "\x27 already defined") ∧
        (add_define (add_define c3ctx "FOO" "1").2 "FOO" "2").2.define_hashtable =
          (add_define c3ctx "FOO" "1").2.define_hashtable ∧
        find_define (remove_define (add_define c3ctx "FOO" "1").2 "FOO").2 "FOO" = none) :=
  ⟨by decide,
   C3_define_round_trip c3ctx "FOO" "1" "2" (by decide) (by simp [c3ctx]) (by decide)⟩

theorem bucketOf_set_ne (t : DefineTable) (i j : Nat) (b : List (String × String))
    (hne : i ≠ j) : bucketOf (t.set i b) j = bucketOf t j := by
  induction t generalizing i j with
  | nil => rfl
  | cons x xs ih =>
    cases i with
    | zero =>
      cases j with
      | zero => exact absurd rfl hne
      | succ m => rfl
    | succ n =>
      cases j with
      | zero => rfl
      | succ m =>
        simp only [List.set_cons_succ, bucketOf, List.getD]
        exact ih n m (by omega)

theorem add_define_table_length (ctx : Context) (a b : String) :
    (add_define ctx a b).2.define_hashtable.length = ctx.define_hashtable.length := by
  simp only [add_define]
  split
  · rfl
  · split
    · simp [MallocOK_table]
    · split
      · simp [MallocOK_table]
      · simp [MallocOK_table, List.length_set]

/-- A successful `add_define` makes the added identifier findable. -/
theorem add_define_find_self (ctx : Context) (sym val : String)
    (hlen : ctx.define_hashtable.length = 256)
    (hadd : (add_define ctx sym val).1 = true) :
    find_define (add_define ctx sym val).2 sym = some val := by
  obtain ⟨hnone, htab, _, _⟩ := add_define_success ctx sym val hadd
  unfold find_define
  rw [htab, bucketOf_set_self _ _ _ (by rw [hlen]; exact hash_define_lt sym)]
  simp [bucketFind]

/-- `add_define` on a present identifier fails. -/
theorem add_define_present_fails (ctx : Context) (s v u : String)
    (hfind : find_define ctx s = some u) :
    (add_define ctx s v).1 = false := by
  unfold find_define at hfind
  simp only [add_define]
  split
  · rfl
  · rename_i hns
    rw [hfind] at hns
    simp at hns

/-- A successful `add_define` preserves every existing binding. -/
theorem add_define_preserves_find (ctx : Context) (a b s u : String)
    (hlen : ctx.define_hashtable.length = 256)
    (hadd : (add_define ctx a b).1 = true)
    (hfind : find_define ctx s = some u) :
    find_define (add_define ctx a b).2 s = some u := by
  obtain ⟨hnone, htab, _, _⟩ := add_define_success ctx a b hadd
  unfold find_define at hfind ⊢
  rw [htab]
  by_cases hh : hash_define a = hash_define s
  · rw [← hh, bucketOf_set_self _ _ _ (by rw [hlen]; exact hash_define_lt a)]
    have has : a ≠ s := by
      intro heq
      rw [heq] at hnone
      rw [hfind] at hnone
      simp at hnone
    simp only [bucketFind, if_neg has]
    rw [hh]
    exact hfind
  · rw [bucketOf_set_ne _ _ _ _ hh]
    exact hfind

/-- If an identifier carried by the remaining predefine list is already
bound, the insertion loop fails. -/
theorem add_predefines_present_fails (s u : String) :
    ∀ (l : List (String × String)) (ctx : Context),
      ctx.define_hashtable.length = 256 →
      find_define ctx s = some u →
      s ∈ l.map Prod.fst →
      (add_predefines ctx l).1 = false := by
  intro l
  induction l with
  | nil => intro ctx _ _ hmem; simp at hmem
  | cons p rest ih =>
    intro ctx hlen hfind hmem
    rcases p with ⟨a, b⟩
    simp only [add_predefines]
    rcases hok : (add_define ctx a b).1 with _ | _
    · simp [hok]
    · by_cases has : a = s
      · rw [has] at hok
        rw [add_define_present_fails ctx s b u hfind] at hok
        simp at hok
      · simp only [hok, if_true]
        apply ih
        · rw [add_define_table_length]; exact hlen
        · exact add_define_preserves_find ctx a b s u hlen hok hfind
        · simp only [List.map_cons, List.mem_cons] at hmem
          rcases hmem with h1 | h2
          · exact absurd h1.symm has
          · exact h2

/-- The insertion loop fails on any predefine list that binds the same
identifier twice. -/
theorem add_predefines_dup_fails (s v w : String) (l2 l3 : List (String × String)) :
    ∀ (l1 : List (String × String)) (ctx : Context),
      ctx.define_hashtable.length = 256 →
      (add_predefines ctx (l1 ++ (s, v) :: l2 ++ (s, w) :: l3)).1 = false := by
  intro l1
  induction l1 with
  | nil =>
    intro ctx hlen
    simp only [List.nil_append, add_predefines]
    rcases hok : (add_define ctx s v).1 with _ | _
    · simp [hok]
    · simp only [hok, if_true]
      apply add_predefines_present_fails s v
      · rw [add_define_table_length]; exact hlen
      · exact add_define_find_self ctx s v hlen hok
      · simp
  | cons p rest ih =>
    intro ctx hlen
    rcases p with ⟨a, b⟩
    simp only [List.cons_append, add_predefines]
    rcases hok : (add_define ctx a b).1 with _ | _
    · simp [hok]
    · simp only [hok, if_true]
      apply ih
      rw [add_define_table_length]; exact hlen

/-- Claim C10: `preprocessor_start` returns a null handle when the
caller-supplied predefine array binds the same identifier twice (the
second insertion fails with `AlreadyDefined`, so the partially built
context is torn down), exactly as it does when the very first allocation
fails. -/
theorem C10_duplicate_predefines_null :
    (∀ (fname : Option String) (source : List Char)
        (openCb : Bool → String → Option (List Char)) (allocs : List Bool)
        (l1 l2 l3 : List (String × String)) (s v w : String),
      preprocessor_start fname source (l1 ++ (s, v) :: l2 ++ (s, w) :: l3) openCb allocs
        = none) ∧
    (∀ (fname : Option String) (source : List Char)
        (defines : List (String × String))
        (openCb : Bool → String → Option (List Char)) (rest : List Bool),
      preprocessor_start fname source defines openCb (false :: rest) = none) := by
  constructor
  · intro fname source openCb allocs l1 l2 l3 s v w
    unfold preprocessor_start
    rcases allocs with _ | ⟨b, r⟩
    · simp only []
      rw [show (add_predefines
          { isfail := false, out_of_memory := false, failstr := "",
            conditional_pool := 0, include_stack := [],
            define_hashtable := List.replicate 256 [], filename_cache := [],
            open_cb := openCb, allocs := [] }
          (l1 ++ (s, v) :: l2 ++ (s, w) :: l3)).1 = false from
        add_predefines_dup_fails s v w l2 l3 l1 _ (by simp)]
      simp
    · cases b
      · simp
      · simp only [Bool.not_true, Bool.false_eq_true, if_false]
        rw [show (add_predefines
            { isfail := false, out_of_memory := false, failstr := "",
              conditional_pool := 0, include_stack := [],
              define_hashtable := List.replicate 256 [], filename_cache := [],
              open_cb := openCb, allocs := r }
            (l1 ++ (s, v) :: l2 ++ (s, w) :: l3)).1 = false from
          add_predefines_dup_fails s v w l2 l3 l1 _ (by simp)]
        simp
  · intro fname source defines openCb rest
    rfl

theorem foldl_append_eq_flatten (l : List (List Char)) :
    ∀ acc : List Char, l.foldl (fun a c => a ++ c) acc = acc ++ l.flatten := by
  induction l with
  | nil => intro acc; simp
  | cons x xs ih =>
    intro acc
    simp only [List.foldl_cons, List.flatten_cons, ih, List.append_assoc]

theorem addLoopF_spec (fuel : Nat) :
    ∀ (data : List Char) (closed : List (List Char)) (tail : List Char),
      data.length ≤ fuel →
      tail.length < BUFFER_LEN →
      (addLoopF fuel data closed tail).1.flatten ++ (addLoopF fuel data closed tail).2 =
          closed.flatten ++ tail ++ data ∧
        (addLoopF fuel data closed tail).2.length < BUFFER_LEN := by
  induction fuel with
  | zero =>
    intro data closed tail hle htail
    have : data = [] := List.length_eq_zero.mp (Nat.le_zero.mp hle)
    subst this
    simp [addLoopF, htail]
  | succ n ih =>
    intro data closed tail hle htail
    rcases data with _ | ⟨d, ds⟩
    · simp [addLoopF, htail]
    · simp only [addLoopF]
      rw [if_neg (by omega)]
      set cpy := min (BUFFER_LEN - tail.length) (d :: ds).length with hcpy
      have hcpy1 : 1 ≤ cpy := le_min (by omega) (by simp)
      have hcpyle : cpy ≤ (d :: ds).length := min_le_right _ _
      have hdroplen : ((d :: ds).drop cpy).length ≤ n := by
        simp only [List.length_drop]
        simp only [List.length_cons] at hle ⊢
        omega
      have htd : (tail ++ (d :: ds).take cpy) ++ (d :: ds).drop cpy = tail ++ (d :: ds) := by
        rw [List.append_assoc, List.take_append_drop]
      split
      · rename_i hfull
        obtain ⟨h1, h2⟩ := ih ((d :: ds).drop cpy) (closed ++ [tail ++ (d :: ds).take cpy]) []
          hdroplen (by decide)
        refine ⟨?_, h2⟩
        rw [h1]
        simp only [List.flatten_append, List.flatten_cons, List.flatten_nil,
          List.append_nil, List.append_assoc]
        rw [List.take_append_drop]
      · rename_i hnotfull
        have htail1 : (tail ++ (d :: ds).take cpy).length < BUFFER_LEN := by
          have : (tail ++ (d :: ds).take cpy).length ≤ BUFFER_LEN := by
            simp only [List.length_append, List.length_take]
            omega
          omega
        obtain ⟨h1, h2⟩ := ih ((d :: ds).drop cpy) closed (tail ++ (d :: ds).take cpy)
          hdroplen htail1
        refine ⟨?_, h2⟩
        rw [h1]
        simp only [List.append_assoc]
        rw [List.take_append_drop]

theorem add_to_buffer_spec (b : Buffer) (data : List Char) (hwf : bufferWF b) :
    bufferWF (add_to_buffer b data) ∧
      bufferContent (add_to_buffer b data) = bufferContent b ++ data ∧
      (add_to_buffer b data).total_bytes = b.total_bytes + data.length := by
  obtain ⟨htot, htail⟩ := hwf
  obtain ⟨h1, h2⟩ := addLoopF_spec data.length data b.closed b.tail (le_refl _) htail
  have hcontent : bufferContent (add_to_buffer b data) = bufferContent b ++ data := by
    simp only [add_to_buffer, addLoop, bufferContent]
    rw [h1]
  have htotal : (add_to_buffer b data).total_bytes = b.total_bytes + data.length := rfl
  refine ⟨⟨?_, ?_⟩, hcontent, htotal⟩
  · rw [htotal, hcontent, htot]
    simp
  · simp only [add_to_buffer, addLoop]
    exact h2

theorem buildBuffer_fold_spec (ds : List (List Char)) :
    ∀ b : Buffer, bufferWF b →
      bufferWF (ds.foldl add_to_buffer b) ∧
        bufferContent (ds.foldl add_to_buffer b) = bufferContent b ++ ds.flatten ∧
        (ds.foldl add_to_buffer b).total_bytes =
          b.total_bytes + (ds.map List.length).sum := by
  induction ds with
  | nil => intro b hwf; simp [hwf]
  | cons d rest ih =>
    intro b hwf
    obtain ⟨hwf1, hcon1, htot1⟩ := add_to_buffer_spec b d hwf
    obtain ⟨hwf2, hcon2, htot2⟩ := ih (add_to_buffer b d) hwf1
    refine ⟨hwf2, ?_, ?_⟩
    · simp only [List.foldl_cons, hcon2, hcon1, List.flatten_cons, List.append_assoc]
    · simp only [List.foldl_cons, htot2, htot1, List.map_cons, List.sum_cons]
      omega

theorem flatten_buffer_eq (b : Buffer) :
    flatten_buffer b = bufferContent b ++ ['\x00'] := by
  simp only [flatten_buffer, bufferContent, foldl_append_eq_flatten, List.nil_append,
    List.flatten_append, List.flatten_cons, List.flatten_nil, List.append_nil]

/-- Claim C8: a chunked buffer built by any sequence of successful
`add_to_buffer` calls flattens to the concatenation, in order, of the
stored bytes followed by a single zero terminator; the flat buffer has
`total_bytes + 1` bytes, and the reported length `total_bytes` is the sum
of the added lengths. -/
theorem C8_flatten_concatenation (ds : List (List Char)) :
    flatten_buffer (buildBuffer ds) = ds.flatten ++ ['\x00'] ∧
      (flatten_buffer (buildBuffer ds)).length = (buildBuffer ds).total_bytes + 1 ∧
      (buildBuffer ds).total_bytes = (ds.map List.length).sum := by
  have hwf0 : bufferWF buffer_init := ⟨rfl, by decide⟩
  obtain ⟨⟨htot, _⟩, hcon, hsum⟩ := buildBuffer_fold_spec ds buffer_init hwf0
  have hb : buildBuffer ds = List.foldl add_to_buffer buffer_init ds := rfl
  have hcon1 : bufferContent (buildBuffer ds) = ds.flatten := by
    rw [hb, hcon]
    rfl
  have hsum1 : (buildBuffer ds).total_bytes = (ds.map List.length).sum := by
    rw [hb, hsum]
    simp [buffer_init]
  have htot1 : (buildBuffer ds).total_bytes = (bufferContent (buildBuffer ds)).length := by
    rw [hb]
    exact htot
  have hflat : flatten_buffer (buildBuffer ds) = ds.flatten ++ ['\x00'] := by
    rw [flatten_buffer_eq, hcon1]
  refine ⟨hflat, ?_, hsum1⟩
  rw [hflat, htot1, hcon1]
  simp

theorem lexer_eoi (s : IncludeState) (h : s.bytes_left = 0) :
    preprocessor_internal_lexer s = (.eoi, { s with token := s.pos }) := by
  unfold preprocessor_internal_lexer
  rw [h]
  simp [lexMainF, h]

theorem dispatch_eoi_unterm (ctx1 : Context) (skipping : Bool) (s1 : IncludeState)
    (h : s1.conditional_stack ≠ []) :
    nexttoken_dispatch ctx1 skipping .eoi s1 = .loop (unterminated_pp_condition ctx1) := by
  unfold nexttoken_dispatch
  simp [h]

theorem dispatch_eoi_pop (ctx1 : Context) (skipping : Bool) (s1 : IncludeState)
    (h : s1.conditional_stack = []) :
    nexttoken_dispatch ctx1 skipping .eoi s1 = .loop (pop_source ctx1) := by
  unfold nexttoken_dispatch
  simp [h]

theorem nexttoken_flush (ctx : Context) (h : ctx.isfail = true) (fuel : Nat) :
    _preprocessor_nexttoken (fuel + 1) ctx =
      (some (some ctx.failstr, ctx.failstr.length, .preprocessing_error),
        { ctx with isfail := false }) := by
  unfold _preprocessor_nexttoken nexttoken_step
  simp [h]

/-- One `next_token` call on an include frame at end of input with an open
conditional: the frame's top conditional is reported as unterminated and
popped, and the latched error is flushed in the same call. -/
theorem unterm_call (ctx : Context) (state : IncludeState) (rest : List IncludeState)
    (cond : Conditional) (cs : List Conditional) (msg : String) (fuel : Nat)
    (hfail : ctx.isfail = false)
    (hstack : ctx.include_stack = state :: rest)
    (hbl : state.bytes_left = 0)
    (hcond : state.conditional_stack = cond :: cs)
    (hmsg : untermMsg cond.type = some msg) :
    _preprocessor_nexttoken (fuel + 2) ctx =
      (some (some (strTrunc 255 msg), (strTrunc 255 msg).length, .preprocessing_error),
        { ctx with
            include_stack := { state with token := state.pos, conditional_stack := cs } :: rest,
            conditional_pool := ctx.conditional_pool + 1,
            failstr := strTrunc 255 msg, isfail := false }) := by
  have hstep1 : nexttoken_step ctx = .loop
      { ctx with
          include_stack := { state with token := state.pos, conditional_stack := cs } :: rest,
          conditional_pool := ctx.conditional_pool + 1,
          failstr := strTrunc 255 msg, isfail := true } := by
    unfold nexttoken_step
    rw [hfail, hstack]
    simp only [Bool.false_eq_true, if_false, lexer_eoi state hbl]
    rw [dispatch_eoi_unterm _ _ _ (by simp [hcond])]
    unfold unterminated_pp_condition
    simp only [hcond, hmsg, fail]
  show _preprocessor_nexttoken (fuel + 1 + 1) ctx = _
  unfold _preprocessor_nexttoken
  rw [hstep1]
  exact nexttoken_flush _ rfl fuel

/-- Draining a stack of `k` open conditionals at end of input produces
exactly `k` unterminated-error tokens, one per frame in order, with the
include frame still on the stack (now with an empty conditional stack). -/
theorem unterm_drain (conds : List Conditional) :
    ∀ (ctx : Context) (state : IncludeState) (rest : List IncludeState),
      ctx.isfail = false →
      ctx.include_stack = state :: rest →
      state.bytes_left = 0 →
      state.conditional_stack = conds →
      (∀ c ∈ conds, (untermMsg c.type).isSome) →
      (pullN conds.length 2 ctx).1 = conds.map untermTriple ∧
        ∃ st, (pullN conds.length 2 ctx).2.include_stack = st :: rest ∧
          st.conditional_stack = [] ∧ st.bytes_left = 0 ∧
          (pullN conds.length 2 ctx).2.isfail = false := by
  induction conds with
  | nil =>
    intro ctx state rest hfail hstack hbl hcond hall
    exact ⟨rfl, state, hstack, hcond, hbl, hfail⟩
  | cons cond cs ih =>
    intro ctx state rest hfail hstack hbl hcond hall
    obtain ⟨msg, hmsg⟩ := Option.isSome_iff_exists.mp (hall cond (by simp))
    have hcall := unterm_call ctx state rest cond cs msg 0 hfail hstack hbl hcond hmsg
    have hrest := ih
      { ctx with
          include_stack := { state with token := state.pos, conditional_stack := cs } :: rest,
          conditional_pool := ctx.conditional_pool + 1,
          failstr := strTrunc 255 msg, isfail := false }
      { state with token := state.pos, conditional_stack := cs } rest
      rfl rfl hbl rfl (fun c hc => hall c (by simp [hc]))
    simp only [List.length_cons, pullN, hcall]
    obtain ⟨hres, st, hstk, hstc, hstb, hsf⟩ := hrest
    refine ⟨?_, st, ?_, hstc, hstb, ?_⟩
    · simp only [hres, List.map_cons, untermTriple, hmsg, Option.getD_some]
    · exact hstk
    · exact hsf

/-- Claim C5: at end of input with `k` open conditional frames the next
`k` calls return exactly `k` Unterminated errors (kind chosen from each
frame's type, outermost-open last), the frames are drained while the
include frame stays on the stack, and only then does the following call
pop the include frame; and the concrete balanced input with matched
nested `#ifdef/#endif` reaches `EOI` with no error token. -/
theorem C5_unterminated_per_frame :
    (∀ (ctx : Context) (state : IncludeState) (rest : List IncludeState)
        (conds : List Conditional),
      ctx.isfail = false →
      ctx.include_stack = state :: rest →
      state.bytes_left = 0 →
      state.conditional_stack = conds →
      (∀ c ∈ conds, (untermMsg c.type).isSome) →
      (pullN conds.length 2 ctx).1 = conds.map untermTriple ∧
        ∃ st, (pullN conds.length 2 ctx).2.include_stack = st :: rest ∧
          st.conditional_stack = [] ∧
          ∃ ctx2, nexttoken_step (pullN conds.length 2 ctx).2 = .loop ctx2 ∧
            ctx2.include_stack = rest) ∧
    runTokens balancedInput [] [] 5 99 =
      [(.char '\n', "\n"), (.char '\n', "\n"), (.char '\n', "\n"),
       (.eoi, ""), (.eoi, "")] := by
  constructor
  · intro ctx state rest conds hfail hstack hbl hcond hall
    obtain ⟨hres, st, hstk, hstc, hstb, hsf⟩ := unterm_drain conds ctx state rest
      hfail hstack hbl hcond hall
    refine ⟨hres, st, hstk, hstc, ?_⟩
    refine ⟨pop_source { (pullN conds.length 2 ctx).2 with
      include_stack := { st with token := st.pos } :: rest }, ?_, ?_⟩
    · unfold nexttoken_step
      rw [if_neg (by simp [hsf]), hstk]
      simp only []
      rw [lexer_eoi st hstb]
      exact dispatch_eoi_pop _ _ _ (by simp [hstc])
    · rfl
  · decide

/-- Witness for the quantified part of C5: a frame at end of input with an
open `#else` frame atop an open `#ifdef` frame yields the two errors in
order and only then is the frame popped. -/
theorem C5_unterminated_per_frame_witness :
    (∀ c ∈ c5wconds, (untermMsg c.type).isSome) ∧
      ((pullN c5wconds.length 2 c5wctx).1 = c5wconds.map untermTriple ∧
        ∃ st, (pullN c5wconds.length 2 c5wctx).2.include_stack = st :: [] ∧
          st.conditional_stack = [] ∧
          ∃ ctx2, nexttoken_step (pullN c5wconds.length 2 c5wctx).2 = .loop ctx2 ∧
            ctx2.include_stack = []) :=
  ⟨by decide,
   C5_unterminated_per_frame.1 c5wctx c5wstate [] c5wconds rfl rfl rfl rfl (by decide)⟩

theorem drop_eq_cons_get (l : List Char) (n : Nat) (c : Char) (t : List Char)
    (h : l.drop n = c :: t) : l.getD n ' ' = c := by
  have h1 : l.getD n ' ' = (l.drop n).headD ' ' := by
    induction l generalizing n with
    | nil => simp
    | cons x xs ih =>
      cases n with
      | zero => rfl
      | succ m => simpa using ih m
  rw [h1, h]
  rfl

theorem charAt_remaining (s : IncludeState) (h : s.bytes_left ≠ 0) :
    charAt s = (remaining s).headD ' ' := by
  unfold charAt remaining
  rcases hd : s.buf.drop s.pos with _ | ⟨c, t⟩
  · have hlen : s.buf.length - s.pos = 0 := by
      have := congrArg List.length hd
      simpa using this
    have : s.buf.length ≤ s.pos := by omega
    simp [List.getD_eq_getElem?_getD, List.getElem?_eq_none (by omega : s.buf.length ≤ s.pos)]
  · rcases hbl : s.bytes_left with _ | m
    · exact absurd hbl h
    · simp only [List.take_succ_cons, List.headD_cons]
      rw [drop_eq_cons_get s.buf s.pos c t hd]

theorem remaining_advance (s : IncludeState) (h : s.bytes_left ≠ 0) :
    remaining (advance s) = (remaining s).tail := by
  unfold remaining advance
  rcases hd : s.buf.drop s.pos with _ | ⟨c, t⟩
  · have hlen : s.buf.length - s.pos = 0 := by
      have := congrArg List.length hd
      simpa using this
    have hnil : s.buf.drop (s.pos + 1) = [] :=
      List.drop_eq_nil_of_le (by omega)
    simp [hnil, hd]
  · have hd1 : s.buf.drop (s.pos + 1) = t := by
      have h2 : s.buf.drop (s.pos + 1) = (s.buf.drop s.pos).drop 1 := by
        rw [List.drop_drop]
      rw [h2, hd]
      rfl
    rcases hbl : s.bytes_left with _ | m
    · exact absurd hbl h
    · simp only [hd1, hd, List.take_succ_cons, List.tail_cons,
        Nat.add_sub_cancel]

theorem remaining_ne_nil_bytes (s : IncludeState) (c : Char) (r : List Char)
    (h : remaining s = c :: r) : s.bytes_left ≠ 0 := by
  intro hbl
  unfold remaining at h
  rw [hbl] at h
  simp at h

theorem remaining_cons (s : IncludeState) (c : Char) (r : List Char)
    (h : remaining s = c :: r) :
    charAt s = c ∧ remaining (advance s) = r := by
  have hbl := remaining_ne_nil_bytes s c r h
  constructor
  · rw [charAt_remaining s hbl, h]
    rfl
  · rw [remaining_advance s hbl, h]
    rfl

theorem remaining_length_le (s : IncludeState) :
    (remaining s).length ≤ s.bytes_left := by
  unfold remaining
  simp

theorem identStart_not_ws (c : Char) (h : identStartChar c = true) :
    isWsChar c = false := by
  by_cases h1 : c = ' '
  · rw [h1] at h; exact absurd h (by decide)
  · by_cases h2 : c = '\t'
    · rw [h2] at h; exact absurd h (by decide)
    · by_cases h3 : c = '\r'
      · rw [h3] at h; exact absurd h (by decide)
      · simp [isWsChar, h1, h2, h3]

theorem identStart_ne_char (c x : Char) (h : identStartChar c = true)
    (hx : identStartChar x = false) : (c == x) = false := by
  by_cases hc : c = x
  · rw [hc] at h; rw [h] at hx; exact absurd hx (by simp)
  · simp [hc]

theorem skipLineCommentF_le (f : Nat) :
    ∀ s : IncludeState, (skipLineCommentF f s).bytes_left ≤ s.bytes_left := by
  induction f with
  | zero => intro s; exact le_refl _
  | succ n ih =>
    intro s
    simp only [skipLineCommentF]
    split
    · exact le_refl _
    · split
      · exact le_refl _
      · calc (skipLineCommentF n (advance s)).bytes_left
            ≤ (advance s).bytes_left := ih (advance s)
          _ ≤ s.bytes_left := by simp [advance]

theorem skipBlockCommentF_le (f : Nat) :
    ∀ s : IncludeState, (skipBlockCommentF f s).2.bytes_left ≤ s.bytes_left := by
  induction f with
  | zero => intro s; exact le_refl _
  | succ n ih =>
    intro s
    simp only [skipBlockCommentF]
    split
    · exact le_refl _
    · split
      · simp only [advance]
        omega
      · split
        · calc (skipBlockCommentF n { advance s with line := s.line + 1 }).2.bytes_left
              ≤ ({ advance s with line := s.line + 1 } : IncludeState).bytes_left :=
                ih _
            _ ≤ s.bytes_left := by simp [advance]
        · calc (skipBlockCommentF n (advance s)).2.bytes_left
              ≤ (advance s).bytes_left := ih (advance s)
            _ ≤ s.bytes_left := by simp [advance]

theorem lexMainF_fuel_irrel (f1 : Nat) :
    ∀ (f2 : Nat) (s : IncludeState), s.bytes_left < f1 → s.bytes_left < f2 →
      lexMainF f1 s = lexMainF f2 s := by
  induction f1 with
  | zero => intro f2 s h1 _; omega
  | succ n ih =>
    intro f2 s h1 h2
    rcases f2 with _ | m
    · omega
    · by_cases hbl : s.bytes_left = 0
      · simp [lexMainF, hbl]
      · simp only [lexMainF, dif_neg hbl]
        split
        · apply ih
          · simp [advance]; omega
          · simp [advance]; omega
        · split
          · rfl
          · split
            · rename_i hcond
              simp only [Bool.and_eq_true, decide_eq_true_eq] at hcond
              apply ih
              · have := skipLineCommentF_le (advance (advance s)).bytes_left
                  (advance (advance s))
                have h3 : (advance (advance s)).bytes_left = s.bytes_left - 2 := by
                  simp [advance]
                  omega
                unfold skipLineComment
                omega
              · have := skipLineCommentF_le (advance (advance s)).bytes_left
                  (advance (advance s))
                have h3 : (advance (advance s)).bytes_left = s.bytes_left - 2 := by
                  simp [advance]
                  omega
                unfold skipLineComment
                omega
            · split
              · rename_i hcond
                simp only [Bool.and_eq_true, decide_eq_true_eq] at hcond
                split
                · rename_i s1 heq
                  have hle := skipBlockCommentF_le (advance (advance s)).bytes_left
                    (advance (advance s))
                  unfold skipBlockComment at heq
                  rw [heq] at hle
                  simp only [] at hle
                  have h3 : (advance (advance s)).bytes_left = s.bytes_left - 2 := by
                    simp [advance]
                    omega
                  apply ih <;> omega
                · rfl
              · rfl

theorem lexer_ws_step (s : IncludeState) (hbl : s.bytes_left ≠ 0)
    (hws : isWsChar (charAt s) = true) :
    preprocessor_internal_lexer s = preprocessor_internal_lexer (advance s) := by
  unfold preprocessor_internal_lexer
  have h1 : lexMainF (s.bytes_left + 1) s = lexMainF s.bytes_left (advance s) := by
    rcases hb : s.bytes_left with _ | m
    · exact absurd hb hbl
    · simp only [lexMainF, dif_neg hbl, hws, if_true]
  rw [h1]
  apply lexMainF_fuel_irrel
  · simp only [advance]; omega
  · simp only [advance]; omega


theorem shiftState_advance (s : IncludeState) (n : Nat) :
    shiftState (advance s) n = shiftState s (n + 1) := by
  simp only [shiftState, advance, IncludeState.mk.injEq, true_and, and_true]
  omega

theorem remaining_shift (s : IncludeState) (a : Nat) (pre rest : List Char)
    (hpre : pre.length = a) (h : remaining s = pre ++ rest) :
    remaining (shiftState s a) = rest := by
  unfold remaining at h ⊢
  unfold shiftState
  simp only []
  have h1 : s.buf.drop (s.pos + a) = (s.buf.drop s.pos).drop a := by
    rw [List.drop_drop, Nat.add_comm]
  rw [h1, ← List.drop_take, h, ← hpre, List.drop_left]

theorem lexer_spaces (a : Nat) :
    ∀ (s : IncludeState) (rest : List Char),
      remaining s = List.replicate a ' ' ++ rest →
      preprocessor_internal_lexer s = preprocessor_internal_lexer (shiftState s a) := by
  induction a with
  | zero => intro s rest h; rfl
  | succ n ih =>
    intro s rest h
    rw [List.replicate_succ, List.cons_append] at h
    have hbl := remaining_ne_nil_bytes s _ _ h
    have hc : charAt s = ' ' := (remaining_cons s _ _ h).1
    have hadv : remaining (advance s) = List.replicate n ' ' ++ rest :=
      (remaining_cons s _ _ h).2
    have hstep := lexer_ws_step s hbl (by rw [hc]; decide)
    rw [hstep, ih (advance s) rest hadv, shiftState_advance]

theorem skipIdentCharsF_run (w : List Char) :
    ∀ (fuel : Nat) (s : IncludeState) (d : Char) (rest : List Char),
      remaining s = w ++ d :: rest → (∀ x ∈ w, identChar x = true) →
      identChar d = false → w.length < fuel →
      skipIdentCharsF fuel s = shiftState s w.length := by
  induction w with
  | nil =>
    intro fuel s d rest h hw hd hf
    rcases fuel with _ | f
    · omega
    · rw [List.nil_append] at h
      have hbl := remaining_ne_nil_bytes s _ _ h
      have hc : charAt s = d := (remaining_cons s _ _ h).1
      simp only [skipIdentCharsF]
      rw [if_neg hbl, if_neg (by rw [hc, hd]; exact Bool.false_ne_true)]
      rfl
  | cons x w ih =>
    intro fuel s d rest h hw hd hf
    rcases fuel with _ | f
    · omega
    · rw [List.cons_append] at h
      have hbl := remaining_ne_nil_bytes s _ _ h
      have hc : charAt s = x := (remaining_cons s _ _ h).1
      have hadv := (remaining_cons s _ _ h).2
      simp only [skipIdentCharsF]
      rw [if_neg hbl, if_pos (by rw [hc]; exact hw x (by simp))]
      rw [ih f (advance s) d rest hadv (fun y hy => hw y (by simp [hy])) hd
        (by simp at hf ⊢; omega)]
      rw [shiftState_advance]
      rfl

theorem skipIdentChars_run (s : IncludeState) (w : List Char) (d : Char)
    (rest : List Char) (h : remaining s = w ++ d :: rest)
    (hw : ∀ x ∈ w, identChar x = true) (hd : identChar d = false) :
    skipIdentChars s = shiftState s w.length := by
  have hlen := remaining_length_le s
  rw [h] at hlen
  simp at hlen
  exact skipIdentCharsF_run w s.bytes_left s d rest h hw hd (by omega)

theorem lexer_newline (s : IncludeState) (tail : List Char)
    (hrem : remaining s = '\n' :: tail) :
    preprocessor_internal_lexer s =
      (.char '\n', { advance s with line := s.line + 1, token := s.pos }) := by
  have hbl := remaining_ne_nil_bytes s _ _ hrem
  have hc : charAt s = '\n' := (remaining_cons s _ _ hrem).1
  unfold preprocessor_internal_lexer
  simp only [lexMainF, dif_neg hbl]
  rw [if_neg (by rw [hc]; decide), if_pos (by rw [hc]; decide)]

theorem lexer_ident (s : IncludeState) (c : Char) (w : List Char) (d : Char)
    (rest : List Char) (hrem : remaining s = c :: (w ++ d :: rest))
    (hc : identStartChar c = true) (hw : ∀ x ∈ w, identChar x = true)
    (hd : identChar d = false) :
    preprocessor_internal_lexer s =
      (.identifier, { shiftState s (w.length + 1) with token := s.pos }) := by
  have hbl := remaining_ne_nil_bytes s _ _ hrem
  have hch : charAt s = c := (remaining_cons s _ _ hrem).1
  have hws : isWsChar (charAt s) = false := by
    rw [hch]; exact identStart_not_ws c hc
  have hnl : (charAt s == '\n') = false := by
    rw [hch]; exact identStart_ne_char c '\n' hc (by decide)
  have hsl : (charAt s == '/') = false := by
    rw [hch]; exact identStart_ne_char c '/' hc (by decide)
  have hhash : (charAt s == '#') = false := by
    rw [hch]; exact identStart_ne_char c '#' hc (by decide)
  have hrun : skipIdentChars s = shiftState s (w.length + 1) := by
    have h2 : remaining s = (c :: w) ++ d :: rest := by
      rw [hrem]; rfl
    have := skipIdentChars_run s (c :: w) d rest h2
      (by
        intro y hy
        rcases List.mem_cons.mp hy with hy | hy
        · rw [hy]; simp [identChar, hc]
        · exact hw y hy)
      hd
    simpa using this
  unfold preprocessor_internal_lexer
  simp only [lexMainF, dif_neg hbl]
  rw [if_neg (by rw [hws]; exact Bool.false_ne_true),
    if_neg (by rw [hnl]; exact Bool.false_ne_true),
    if_neg (by rw [hsl]; simp),
    if_neg (by rw [hsl]; simp),
    if_neg (by rw [hhash]; simp),
    if_pos (by rw [hch]; exact hc)]
  rw [hrun]

theorem bufSlice_of_remaining (s : IncludeState) (pre mid post : List Char)
    (a n : Nat) (ha : pre.length = a)
    (h : remaining s = pre ++ (mid ++ post)) (hn : n ≤ mid.length) :
    bufSlice s.buf (s.pos + a) (s.pos + a + n) = mid.take n := by
  obtain ⟨t, ht⟩ := List.take_prefix s.bytes_left (s.buf.drop s.pos)
  have ht' : s.buf.drop s.pos = (pre ++ (mid ++ post)) ++ t := by
    rw [← h]
    exact ht.symm
  unfold bufSlice
  have h2 : s.pos + a + n - (s.pos + a) = n := by omega
  have h3 : s.buf.drop (s.pos + a) = (s.buf.drop s.pos).drop a := by
    rw [List.drop_drop, Nat.add_comm]
  rw [h2, h3, ht', List.append_assoc, ← ha, List.drop_left,
    List.append_assoc, List.take_append_of_le_length hn]

theorem ppErrorLoop_ident_step_none (f : Nat) (s s1 : IncludeState)
    (h : preprocessor_internal_lexer s = (.identifier, s1)) :
    ppErrorLoop (f + 1) none s = ppErrorLoop f (some s1.token) s1 := by
  simp [ppErrorLoop, h]

theorem ppErrorLoop_newline_step (f : Nat) (dat : Option Nat)
    (s s1 : IncludeState)
    (h : preprocessor_internal_lexer s = (.char '\n', s1)) :
    ppErrorLoop (f + 1) dat s = (dat, s.pos, { s1 with line := s1.line - 1 }) := by
  simp [ppErrorLoop, h]

/-- Claim C6, amended: the failure string latched by `#error` is not the
raw byte slice starting just past the keyword.  The loop records the start
of the first lexeme after `#error`, so leading (and trailing) whitespace
is dropped while interior bytes are kept verbatim, and the message is
truncated to 249 bytes, not 248.  For a message consisting of one word
surrounded by spaces, the latched string is exactly `"#error "` followed
by the word (truncated to 249 bytes). -/
theorem C6_error_token_slice (ctx : Context) (state : IncludeState)
    (rest : List IncludeState) (a b : Nat) (c : Char) (w tail : List Char)
    (hstk : ctx.include_stack = state :: rest)
    (hrem : remaining state =
      List.replicate a ' ' ++ ((c :: w) ++ (List.replicate b ' ' ++ '\n' :: tail)))
    (hc : identStartChar c = true)
    (hw : ∀ x ∈ w, identChar x = true) :
    (handle_pp_error ctx).isfail = true ∧
    (handle_pp_error ctx).failstr =
      "#error " ++ String.mk ((c :: w).take (min (w.length + 1) 249)) := by
  have hbl2 : 1 ≤ state.bytes_left := by
    have h0 := remaining_length_le state
    rw [hrem] at h0
    simp at h0
    omega
  set s1 : IncludeState := shiftState state a with hs1
  set s2 : IncludeState := { shiftState s1 (w.length + 1) with token := s1.pos } with hs2
  set s3 : IncludeState := shiftState s2 b with hs3
  have hrem1 : remaining s1 = (c :: w) ++ (List.replicate b ' ' ++ '\n' :: tail) :=
    remaining_shift state a _ _ (by simp) hrem
  obtain ⟨d, rest2, hdeq, hd⟩ : ∃ d rest2,
      List.replicate b ' ' ++ '\n' :: tail = d :: rest2 ∧ identChar d = false := by
    cases b with
    | zero => exact ⟨'\n', tail, rfl, by decide⟩
    | succ b2 => exact ⟨' ', List.replicate b2 ' ' ++ '\n' :: tail, rfl, by decide⟩
  have hlexstate : preprocessor_internal_lexer state = (.identifier, s2) := by
    rw [lexer_spaces a state _ hrem, ← hs1]
    rw [hs2]
    exact lexer_ident s1 c w d rest2 (by rw [hrem1, hdeq]; rfl) hc hw hd
  have hrem2 : remaining s2 = List.replicate b ' ' ++ '\n' :: tail := by
    have he : remaining s2 = remaining (shiftState s1 (w.length + 1)) := by
      rw [hs2]
      rfl
    rw [he]
    exact remaining_shift s1 (w.length + 1) (c :: w) _ (by simp) hrem1
  have hrem3 : remaining s3 = '\n' :: tail :=
    remaining_shift s2 b _ _ (by simp) hrem2
  have hlexs2 : preprocessor_internal_lexer s2 =
      (.char '\n', { advance s3 with line := s3.line + 1, token := s3.pos }) := by
    rw [lexer_spaces b s2 _ hrem2, ← hs3]
    exact lexer_newline s3 tail hrem3
  obtain ⟨m, hm⟩ : ∃ m, state.bytes_left = m + 1 := ⟨state.bytes_left - 1, by omega⟩
  have hloop : ppErrorLoop (state.bytes_left + 1) none state =
      (some s2.token, s2.pos,
        { advance s3 with line := s3.line + 1 - 1, token := s3.pos }) := by
    rw [ppErrorLoop_ident_step_none state.bytes_left state s2 hlexstate, hm]
    exact ppErrorLoop_newline_step m (some s2.token) s2 _ hlexs2
  have htok : s2.token = state.pos + a := by rw [hs2, hs1]; rfl
  have hpos : s2.pos = state.pos + a + (w.length + 1) := by rw [hs2, hs1]; rfl
  have hsub : state.pos + a + (w.length + 1) - (state.pos + a) = w.length + 1 := by
    omega
  have hbuf3 : (advance s3).buf = state.buf := by
    rw [hs3, hs2, hs1]; rfl
  have hslice := bufSlice_of_remaining state (List.replicate a ' ') (c :: w)
    (List.replicate b ' ' ++ '\n' :: tail) a (min (w.length + 1) 249)
    (by simp) hrem (by simp only [List.length_cons]; omega)
  constructor
  · simp only [handle_pp_error, hstk, hloop]
  · simp only [handle_pp_error, hstk, hloop, Option.getD_some, htok, hpos, hsub]
    rw [hbuf3, show (shiftState s1 (w.length + 1)).pos = s1.pos + (w.length + 1) from rfl,
      show s1.pos = state.pos + a from by rw [hs1]; rfl, hsub]
    unfold sliceStr
    rw [hslice]

/-- Witness for C6: on the state whose remaining text is
`"  abc \nQ"`, the latched failure string is `"#error abc"`. -/
theorem C6_error_token_slice_witness :
    c6wctx.include_stack = c6wstate :: [] ∧
    remaining c6wstate =
      List.replicate 2 ' ' ++ (('a' :: ['b', 'c']) ++ (List.replicate 1 ' ' ++ '\n' :: ['Q'])) ∧
    (handle_pp_error c6wctx).isfail = true ∧
    (handle_pp_error c6wctx).failstr =
      "#error " ++ String.mk (('a' :: ['b', 'c']).take (min (['b', 'c'].length + 1) 249)) :=
  ⟨rfl, by decide,
   C6_error_token_slice c6wctx c6wstate [] 2 1 'a' ['b', 'c'] ['Q'] rfl (by decide)
     (by decide) (by decide)⟩

/-- Counterexample to the literal C6 claim: on `"#error  bad  thing \nZ\n"`
the latched string is `"#error bad  thing"` (leading and trailing
whitespace of the message dropped), which differs from the claimed
just-past-the-keyword slice `"#error   bad  thing "`. -/
theorem C6_error_message_counterexample :
    (handle_pp_error errWsCtx).failstr = "#error bad  thing" ∧
    (handle_pp_error errWsCtx).failstr ≠ claimedErrorMessage errWsInput.data 6 := by
  decide

end MojoPP
